import Mathlib

/- Verification development for a media download web application (app.py).
   The definitions below are shallow embeddings of the functions of the
   source file; the theorems at the end of the file settle the frozen
   specification claims against those definitions.  Machine integers do
   not occur in the source (Python integers are unbounded), so Nat and
   Int model them directly; subtitle timestamps are milliseconds as Nat;
   download percentages are rationals. -/

/- ── String utilities mirroring Python operations ── -/

/-- Decides whether the first character list is a prefix of the second
    (helper for the Python substring test). -/
def listStartsWith : List Char → List Char → Bool
  | [], _ => true
  | _ :: _, [] => false
  | p :: ps, c :: cs => p == c && listStartsWith ps cs

/-- Decides whether pat occurs as a contiguous substring of the second list. -/
def listContainsSub (pat : List Char) : List Char → Bool
  | [] => pat.isEmpty
  | c :: cs => listStartsWith pat (c :: cs) || listContainsSub pat cs

/-- Python membership test needle in haystack for strings. -/
def strContains (haystack needle : String) : Bool :=
  listContainsSub needle.data haystack.data

/-- Python str.strip on a character list: whitespace removed from both
    ends. -/
def stripChars (l : List Char) : List Char :=
  ((l.dropWhile Char.isWhitespace).reverse.dropWhile Char.isWhitespace).reverse

/-- Python str.strip for strings. -/
def pyStrip (s : String) : String := String.mk (stripChars s.data)

/-- Python slicing s[-n:]: the last n characters (the whole string when
    it is shorter). -/
def pyTakeRight (s : String) (n : Nat) : String :=
  String.mk (s.data.drop (s.data.length - n))

/-- Python pathlib Path.suffix for an ordinary file name: the final
    extension including the dot, or the empty string when there is no
    dot. -/
def pathSuffix (name : String) : String :=
  let rev := name.data.reverse
  let ext := rev.takeWhile (fun c => c ≠ '.')
  if ext.length = rev.length then "" else String.mk ('.' :: ext.reverse)

/-- Python pathlib Path.stem: the file name with its final suffix removed. -/
def pathStem (name : String) : String :=
  name.dropRight (pathSuffix name).length

/- ── FORMAT_MAP and quality normalization (app.py lines 223 to 229,
      691 to 710, 492 to 501) ── -/

/-- FORMAT_MAP from app.py: quality keyword to declarative format expression. -/
def FORMAT_MAP : List (String × String) := [
  ("best",  "bestvideo+bestaudio/bestvideo/best"),
  ("1080p", "bestvideo[height<=1080]+bestaudio/best[height<=1080]/bestvideo+bestaudio/best"),
  ("720p",  "bestvideo[height<=720]+bestaudio/best[height<=720]/bestvideo+bestaudio/best"),
  ("480p",  "bestvideo[height<=480]+bestaudio/best[height<=480]/bestvideo+bestaudio/best"),
  ("audio", "bestaudio/best")]

/-- Python membership test quality in FORMAT_MAP. -/
def formatMapMem (q : String) : Bool :=
  FORMAT_MAP.any (fun kv => kv.1 == q)

/-- Python FORMAT_MAP.get(q, dflt). -/
def formatMapGet (q : String) (dflt : String) : String :=
  ((FORMAT_MAP.find? (fun kv => kv.1 == q)).map (fun kv => kv.2)).getD dflt

/-- Quality normalization performed by api_download: the raw request value
    (empty models a missing or empty field, which Python or-defaults to
    best), stripped, then silently replaced by best when unrecognized. -/
def apiDownloadQuality (rawQuality : String) : String :=
  let quality := pyStrip (if rawQuality = "" then "best" else rawQuality)
  if formatMapMem quality then quality else "best"

/-- Response of the api_download route, reduced to the data the claims
    inspect: either a 400 rejection or a created job with the normalized
    quality and burn flag that are passed to submit_download. -/
inductive ApiDownloadResp
  | badRequest (msg : String)
  | jobCreated (quality : String) (burnSubtitle : Bool)
  deriving DecidableEq, Repr

/-- The api_download route (app.py lines 691 to 710): trims the url,
    normalizes the quality, rejects only an empty url. -/
def api_download (rawUrl rawQuality : String) (burnSubtitle : Bool) : ApiDownloadResp :=
  let url := pyStrip rawUrl
  let quality := apiDownloadQuality rawQuality
  if url = "" then .badRequest "请输入视频链接"
  else .jobCreated quality burnSubtitle

/-- The format expression run_download derives from the quality keyword:
    FORMAT_MAP.get(quality, FORMAT_MAP of best). -/
def runDownloadFmt (quality : String) : String :=
  formatMapGet quality (formatMapGet "best" "")

/- ── Credential pool rotator (app.py lines 62 to 101) ── -/

/-- get_next_cookie from app.py: pool is the sorted cookie file list and
    poolIdx the global cursor _pool_idx.  Returns the selected file (none
    when the pool is empty) together with the new cursor value. -/
def get_next_cookie (pool : List String) (poolIdx : Nat) : Option String × Nat :=
  if pool.isEmpty then (none, poolIdx)
  else
    let idx := poolIdx % pool.length
    (pool[idx]?, idx + 1)

/-- Iterates get_next_cookie n times over a fixed pool, collecting the
    returned files in order and threading the cursor. -/
def nextCookieCalls (pool : List String) : Nat → Nat → List (Option String) × Nat
  | 0, c => ([], c)
  | n + 1, c =>
    let r := get_next_cookie pool c
    let rest := nextCookieCalls pool n r.2
    (r.1 :: rest.1, rest.2)

/-- The cookie-relevant content of the yt-dlp option dictionary built by
    _get_base_opts. -/
structure BaseOpts where
  cookiefile : Option String
  deriving DecidableEq, Repr

/-- _get_base_opts from app.py: consumes one rotation step and stores the
    selected cookie file (when one exists) in the options. -/
def getBaseOpts (pool : List String) (poolIdx : Nat) : BaseOpts × Nat :=
  let r := get_next_cookie pool poolIdx
  (⟨r.1⟩, r.2)

/-- Response of the api_cookies_check route, reduced to which cookie file
    the validation probe uses. -/
inductive CookiesCheckResp
  | notConfigured
  | probe (cookiefile : String)
  deriving DecidableEq, Repr

/-- api_cookies_check from app.py (lines 843 to 864): with a non-empty
    pool it builds base options (which advances the rotation cursor) and
    then overrides the cookiefile entry with the first pool member. -/
def api_cookies_check (pool : List String) (poolIdx : Nat) :
    CookiesCheckResp × Nat :=
  if pool.isEmpty then (.notConfigured, poolIdx)
  else
    let r := getBaseOpts pool poolIdx
    (.probe (pool.headD ""), r.2)

/- ── Concurrency scheduler (app.py lines 104 to 211) ──
   Sequentialized model of submit_download and of the semaphore:
   jobs are identified by Nat, avail counts free semaphore slots,
   pending is the _pending_jobs list, qpos and stat give each job
   record its queue_pos field and its scheduling state.  The model
   follows the canonical interleaving in which each submission
   (append, queue_pos assignment, worker start) runs to its blocking
   point before the next event, and a semaphore release wakes the
   longest-blocked waiter, as the CPython condition queue does. -/

/-- Scheduler-relevant state of a job record. -/
inductive SchedStatus
  | pend
  | queued
  | run
  | done
  deriving DecidableEq, Repr

/-- Scheduler state: free slots, the _pending_jobs list, and per-job
    queue_pos and status fields of the record store. -/
structure Sched where
  avail : Nat
  pending : List Nat
  qpos : Nat → Nat
  stat : Nat → SchedStatus

/-- The renumber loop of the worker in submit_download:
    for i, jid in enumerate(pending): update_job(jid, queue_pos=i+1). -/
def renumberFrom (i : Nat) (l : List Nat) (qp : Nat → Nat) : Nat → Nat :=
  match l with
  | [] => qp
  | j :: rest => renumberFrom (i + 1) rest (fun x => if x = j then i + 1 else qp x)

/-- submit_download for one job: append to _pending_jobs, set queue_pos to
    the 1-based length, then the worker tries a non-blocking acquire; on
    success it removes itself from the wait list and renumbers the rest,
    on failure it marks the job queued and blocks. -/
def submit (s : Sched) (j : Nat) : Sched :=
  if 0 < s.avail then
    { avail := s.avail - 1
      pending := (s.pending ++ [j]).erase j
      qpos := renumberFrom 0 ((s.pending ++ [j]).erase j)
        (fun x => if x = j then (s.pending ++ [j]).length else s.qpos x)
      stat := fun x => if x = j then .run else s.stat x }
  else
    { avail := s.avail
      pending := s.pending ++ [j]
      qpos := fun x => if x = j then (s.pending ++ [j]).length else s.qpos x
      stat := fun x => if x = j then .queued else s.stat x }

/-- Semaphore release followed by wake-up of the head waiter, whose
    blocked acquire returns inside the worker: it removes itself from
    _pending_jobs, renumbers the remaining waiters (which does not touch
    its own queue_pos), and starts running.  The released slot is taken
    back immediately by the admitted waiter, so avail is unchanged when
    a waiter exists. -/
def releaseAdmit (s : Sched) : Sched :=
  if s.pending.isEmpty then { s with avail := s.avail + 1 }
  else
    { avail := s.avail
      pending := s.pending.erase (s.pending.headD 0)
      qpos := renumberFrom 0 (s.pending.erase (s.pending.headD 0)) s.qpos
      stat := fun x => if x = s.pending.headD 0 then .run else s.stat x }

/-- Completion of a running job: run_download returns, the finally block
    releases the semaphore, and a blocked waiter (if any) is admitted. -/
def complete (s : Sched) (j : Nat) : Sched :=
  releaseAdmit { s with stat := fun x => if x = j then .done else s.stat x }

/-- Fresh scheduler with capacity cap: no waiters, every job record as
    make_job creates it (queue_pos 0, status pending). -/
def schedInit (cap : Nat) : Sched :=
  { avail := cap, pending := [], qpos := fun _ => 0, stat := fun _ => .pend }

/-- Submits jobs 1, 2, ..., n in order into a fresh scheduler of
    capacity cap. -/
def submitN (cap n : Nat) : Sched :=
  (List.range' 1 n).foldl submit (schedInit cap)

/- ── Subtitle overlap repair (app.py lines 269 to 305) ──
   The embedding works on the parsed timing pairs (start, end) in
   milliseconds, exactly the values the _ms helper extracts; entries
   whose timecode line does not parse do not reach the timing update
   and are orthogonal to the claims. -/

/-- Body of the repair loop of _fix_srt_overlaps for one entry, given the
    end time of the previous written entry. -/
def fixEntry (prevEnd : Nat) (se : Nat × Nat) : Nat × Nat :=
  if se.1 < prevEnd then
    if prevEnd + 50 ≥ se.2 then (prevEnd + 50, prevEnd + 50 + 1000)
    else (prevEnd + 50, se.2)
  else se

/-- The repair loop of _fix_srt_overlaps over the parsed entry list,
    threading prev_end_ms (initially 0) through the fold. -/
def fixOverlaps (prevEnd : Nat) : List (Nat × Nat) → List (Nat × Nat)
  | [] => []
  | se :: rest =>
    let fe := fixEntry prevEnd se
    fe :: fixOverlaps fe.2 rest

/-- A timeline is well formed after prevEnd when every block starts no
    earlier than its predecessor ends and ends strictly after it starts. -/
def wellTimed : Nat → List (Nat × Nat) → Prop
  | _, [] => True
  | prevEnd, se :: rest => prevEnd ≤ se.1 ∧ se.1 < se.2 ∧ wellTimed se.2 rest

instance wellTimedDecidable : ∀ p l, Decidable (wellTimed p l)
  | _, [] => .isTrue trivial
  | _, se :: rest =>
    have := wellTimedDecidable se.2 rest
    inferInstanceAs (Decidable (_ ∧ _ ∧ _))

/- ── Translation batching (app.py lines 308 to 371) ──
   The batched branch of _translate_srt_to_chinese joins a batch with
   SEPARATOR, translates it as one string, splits the result on one or
   more marker characters (re.split with the marker repeated), assigns
   parts positionally, and replaces missing or empty parts with the
   original text of the block. -/

/-- The separator token placed between batched subtitle texts. -/
def SEPARATOR : String := "\n◆◆◆\n"

mutual

/-- Splitting of a character list on maximal runs of the separator
    character, collecting the current segment (reversed) as it goes;
    mirrors re.split of the marker repeated one or more times. -/
def splitSegGo (sep : Char) : List Char → List Char → List (List Char)
  | [], cur => [cur.reverse]
  | c :: rest, cur =>
    if c = sep then cur.reverse :: splitSegSkip sep rest
    else splitSegGo sep rest (c :: cur)

/-- Consumes the remainder of a separator run, then resumes collecting. -/
def splitSegSkip (sep : Char) : List Char → List (List Char)
  | [] => [[]]
  | c :: rest => if c = sep then splitSegSkip sep rest else splitSegGo sep rest [c]

end

/-- Python re.split on one-or-more diamond markers applied to the
    translated batch result. -/
def reSplitMarker (s : String) : List String :=
  (splitSegGo '◆' s.data []).map (fun l => String.mk l)

/-- The part-assignment loop: for i, part in enumerate(parts), when i is
    inside the batch, translated at i becomes part stripped. -/
def assignPartsFrom (i : Nat) (tr : List String) (batchLen : Nat) :
    List String → List String
  | [] => tr
  | part :: rest =>
    assignPartsFrom (i + 1) (if i < batchLen then tr.set i (pyStrip part) else tr)
      batchLen rest

/-- The replacement loop: any entry left empty falls back to the original
    text of that block. -/
def fillEmpty : List String → List String → List String
  | [], _ => []
  | t :: ts, [] => t :: ts
  | t :: ts, o :: os => (if t = "" then o else t) :: fillEmpty ts os

/-- Processing of one translated batch result: split the result on the
    (possibly corrupted) separator, assign parts positionally into a
    fresh list of empty slots, then replace empty slots by originals. -/
def processBatchResult (batch : List String) (result : String) : List String :=
  let parts := reSplitMarker result
  let translated := assignPartsFrom 0 (List.replicate batch.length "") batch.length parts
  fillEmpty translated batch

/- ── Job record store (app.py lines 103 to 152) ── -/

/-- The status enumeration of a job record. -/
inductive JStatus
  | pending
  | queued
  | downloading
  | merging
  | translating
  | burning
  | done
  | error
  deriving DecidableEq, Repr

/-- A job record as make_job creates it.  The created_at timestamp is
    omitted (written once at creation, never read by any claim);
    completed_at is modelled as the flag of having been set. -/
structure JobRec where
  status : JStatus
  progress : ℚ
  queue_pos : Nat
  speed : String
  eta : String
  title : String
  filename : Option String
  filepath : Option String
  original_filepath : Option String
  original_filename : Option String
  burned_filepath : Option String
  burned_filename : Option String
  burn_error : Option String
  error : Option String
  url : String
  user_id : String
  completed_at : Bool
  deriving DecidableEq, Repr

/-- make_job from app.py: the initial record of a freshly created job. -/
def make_job (url user_id : String) : JobRec :=
  { status := .pending, progress := 0, queue_pos := 0, speed := "", eta := "",
    title := "", filename := none, filepath := none, original_filepath := none,
    original_filename := none, burned_filepath := none, burned_filename := none,
    burn_error := none, error := none, url := url, user_id := user_id,
    completed_at := false }

/-- One update_job call: the keyword arguments provided (none = absent). -/
structure Upd where
  status : Option JStatus := none
  progress : Option ℚ := none
  speed : Option String := none
  eta : Option String := none
  title : Option String := none
  filename : Option String := none
  filepath : Option String := none
  original_filepath : Option String := none
  original_filename : Option String := none
  burned_filepath : Option String := none
  burned_filename : Option String := none
  burn_error : Option String := none
  error : Option String := none
  completed_at : Bool := false
  deriving DecidableEq, Repr

/-- Application of an optional new field value (dict.update semantics:
    provided keys overwrite, absent keys keep the old value). -/
def updField {α : Type} (new : Option α) (old : Option α) : Option α :=
  match new with
  | some v => some v
  | none => old

/-- update_job from app.py: atomically applies the provided keyword
    arguments to the record. -/
def applyUpd (r : JobRec) (u : Upd) : JobRec :=
  { status := u.status.getD r.status
    progress := u.progress.getD r.progress
    queue_pos := r.queue_pos
    speed := u.speed.getD r.speed
    eta := u.eta.getD r.eta
    title := u.title.getD r.title
    filename := updField u.filename r.filename
    filepath := updField u.filepath r.filepath
    original_filepath := updField u.original_filepath r.original_filepath
    original_filename := updField u.original_filename r.original_filename
    burned_filepath := updField u.burned_filepath r.burned_filepath
    burned_filename := updField u.burned_filename r.burned_filename
    burn_error := updField u.burn_error r.burn_error
    error := updField u.error r.error
    url := r.url
    user_id := r.user_id
    completed_at := r.completed_at || u.completed_at }

/- ── run_download (app.py lines 492 to 626) ──
   The external collaborators (extraction service, transcoder,
   translator, filesystem) are an environment; run_download is embedded
   as the chronological list of update_job calls it performs, together
   with the format expressions attempted and the working-directory
   state at the start of the fallback retry. -/

/-- Python round to the nearest integer with ties to even. -/
def roundHalfEven (y : ℚ) : ℤ :=
  if Int.fract y < 1 / 2 then ⌊y⌋
  else if 1 / 2 < Int.fract y then ⌊y⌋ + 1
  else if 2 ∣ ⌊y⌋ then ⌊y⌋ else ⌊y⌋ + 1

/-- Python round(x, 1) on the parsed percent value. -/
def pyRound1 (x : ℚ) : ℚ := (roundHalfEven (10 * x) : ℚ) / 10

/-- One callback delivered to progress_hook: a downloading event with the
    parsed percent (none when float() raises ValueError, which the hook
    turns into 0) and the speed and eta strings, or a finished event. -/
inductive HookEv
  | downloading (pct : Option ℚ) (speed eta : String)
  | finished
  deriving DecidableEq, Repr

/-- progress_hook from run_download: a downloading event writes status,
    rounded percent, speed and eta; a finished event writes merging
    at 99 percent. -/
def hookUpd : HookEv → Upd
  | .downloading pct speed eta =>
    { status := some .downloading, progress := some (pyRound1 (pct.getD 0)),
      speed := some speed, eta := some eta }
  | .finished => { status := some .merging, progress := some 99 }

/-- One extraction attempt: the hook events it delivers, its outcome
    (error message or extracted title), and the files (name, byte size)
    it leaves in the working directory. -/
structure DlAttempt where
  events : List HookEv
  result : Except String String
  files : List (String × Nat)
  deriving Repr

/-- The subtitle file found for burn-in, reduced to the predicates the
    pipeline branches on. -/
structure SubFile where
  isVtt : Bool
  isZh : Bool
  deriving DecidableEq, Repr

/-- Environment of one _burn_subtitle_with_progress invocation: probed
    media duration in microseconds (0 when probing failed), the parsed
    out_time_us values of the transcoder progress stream, its exit code
    and its diagnostic output. -/
structure BurnEnv where
  durationUs : Nat
  outTimes : List Nat
  returncode : Int
  stderr : String
  deriving DecidableEq, Repr

/-- Environment of one run_download execution. The second attempt is
    consulted only when the fallback retry runs. -/
structure DlEnv where
  attempt1 : DlAttempt
  attempt2 : DlAttempt
  sub : Option SubFile
  burn : BurnEnv
  deriving Repr

/-- The percentages _burn_subtitle_with_progress reports through its
    callback: min(99, out_time divided by duration times 100), emitted
    only when the probed duration is positive. -/
def burnPcts (b : BurnEnv) : List Nat :=
  if 0 < b.durationUs then
    b.outTimes.map (fun cur => min 99 (cur * 100 / b.durationUs))
  else []

/-- The RuntimeError message raised on a non-zero transcoder exit: a
    fixed prefix plus the last 800 characters of the diagnostic output. -/
def burnErrorMsg (b : BurnEnv) : String :=
  "ffmpeg 字幕烧录失败：" ++ pyTakeRight b.stderr 800

/-- _burn_subtitle_with_progress: the callback percentages in order and
    the raised error message when the exit code is non-zero. -/
def burnSubtitleWithProgress (b : BurnEnv) : List Nat × Option String :=
  (burnPcts b, if b.returncode ≠ 0 then some (burnErrorMsg b) else none)

/-- The video container suffixes run_download recognizes. -/
def VIDEO_SUFFIXES : List String := [".mp4", ".mkv", ".webm", ".mov", ".avi"]

/-- Python max with a size key: the first element of maximal size wins. -/
def maxBySize (a : String × Nat) (l : List (String × Nat)) : String × Nat :=
  l.foldl (fun best f => if best.2 < f.2 then f else best) a

/-- Output-file selection of run_download: the largest video file, else
    the largest file of any kind, none when the directory is empty
    (which makes run_download raise). -/
def pickOutput (files : List (String × Nat)) : Option (String × Nat) :=
  match files.filter (fun f => VIDEO_SUFFIXES.contains (pathSuffix f.1)) with
  | [] =>
    match files with
    | [] => none
    | a :: rest => some (maxBySize a rest)
  | a :: rest => some (maxBySize a rest)

/-- Result of one run_download execution: the chronological update_job
    calls, the format expressions attempted in order, and the content of
    the working directory right after the fallback clear (some value
    exactly when the retry ran; the clear loop unlinks every file). -/
structure RunResult where
  updates : List Upd
  attempts : List String
  retryDir : Option (List (String × Nat))
  deriving DecidableEq, Repr

/-- The update written by the burn progress callback for one reported
    percentage. -/
def burnCbUpd (pct : Nat) : Upd :=
  { status := some JStatus.burning, progress := some (pct : ℚ) }

/-- The update_job calls of run_download from the point where the base
    download has succeeded with the given title and directory content:
    output-file selection, recording of the original artifact, the
    subtitle pipeline when burn-in is on, and the final done update. -/
def runDownloadSuccess (jobDir : String) (burnSub : Bool) (env : DlEnv)
    (title : String) (files : List (String × Nat)) : List Upd :=
  match pickOutput files with
  | none =>
    [{ status := some .error, error := some "下载后未找到文件", completed_at := true }]
  | some out =>
    let origUpd : Upd :=
      { original_filepath := some (jobDir ++ "/" ++ out.1),
        original_filename := some out.1 }
    let burnUpds : List Upd :=
      if burnSub then
        match env.sub with
        | none => []
        | some sf =>
          let transUpds : List Upd :=
            if sf.isZh then []
            else [{ status := some .translating, progress := some 99 }]
          let startUpd : Upd := { status := some .burning, progress := some 0 }
          let r := burnSubtitleWithProgress env.burn
          let cbUpds : List Upd := r.1.map burnCbUpd
          let endUpds : List Upd :=
            match r.2 with
            | none =>
              [{ burned_filepath := some (jobDir ++ "/" ++ (pathStem out.1 ++ "_subbed.mp4")),
                 burned_filename := some (pathStem out.1 ++ "_subbed.mp4") }]
            | some msg =>
              [{ burn_error := some ("字幕烧录失败（可下载原始视频）：" ++ msg) }]
          transUpds ++ [startUpd] ++ cbUpds ++ endUpds
      else []
    let doneUpd : Upd :=
      { status := some .done, progress := some 100, title := some title,
        filename := some out.1, filepath := some (jobDir ++ "/" ++ out.1),
        completed_at := true }
    [origUpd] ++ burnUpds ++ [doneUpd]

/-- run_download from app.py: derives the format expression, disables
    burn-in for audio, runs the first extraction attempt, on the specific
    format-unavailable error clears the directory and retries once with
    the plain best expression, and on any other error finalizes the job
    as a fatal error. -/
def runDownload (jobDir quality : String) (burnSubtitle : Bool) (env : DlEnv) :
    RunResult :=
  let fmt := runDownloadFmt quality
  let isAudio := quality == "audio"
  let burnSub := if isAudio then false else burnSubtitle
  let upds1 := env.attempt1.events.map hookUpd
  match env.attempt1.result with
  | .ok title =>
    ⟨upds1 ++ runDownloadSuccess jobDir burnSub env title env.attempt1.files,
     [fmt], none⟩
  | .error e =>
    if strContains e "Requested format is not available" then
      let resetUpd : Upd := { status := some .downloading, progress := some 0 }
      let upds2 := env.attempt2.events.map hookUpd
      match env.attempt2.result with
      | .ok title =>
        ⟨upds1 ++ [resetUpd] ++ upds2 ++
           runDownloadSuccess jobDir burnSub env title env.attempt2.files,
         [fmt, "best"], some []⟩
      | .error e2 =>
        ⟨upds1 ++ [resetUpd] ++ upds2 ++
           [{ status := some .error, error := some e2, completed_at := true }],
         [fmt, "best"], some []⟩
    else
      ⟨upds1 ++ [{ status := some .error, error := some e, completed_at := true }],
       [fmt], none⟩

/-- The record a job ends with: the update_job calls applied in order to
    the freshly created record. -/
def finalRecord (init : JobRec) (rr : RunResult) : JobRec :=
  rr.updates.foldl applyUpd init

/- ── Progress monotonicity predicates (claim C2) ── -/

/-- The sequence of records a job passes through: the initial record
    followed by the result of each successive update_job call. -/
def recSeq (init : JobRec) (us : List Upd) : List JobRec :=
  us.scanl applyUpd init

/-- The property claimed by the specification: between consecutive
    updates performed while the status is non-terminal, the progress
    field never decreases. -/
def pairwiseMonoB : List JobRec → Bool
  | [] => true
  | [_] => true
  | a :: b :: rest =>
    (a.status == .done || a.status == .error || decide (a.progress ≤ b.progress))
      && pairwiseMonoB (b :: rest)

/-- An update that deliberately rewrites progress against the flow: the
    reset to 0 at the fallback retry and at the burn-in start, and the
    cap to 99 at the merging and translating transitions. -/
def isResetUpd (u : Upd) : Bool :=
  (u.progress == some 0 && (u.status == some .downloading || u.status == some .burning))
    || (u.progress == some 99 && (u.status == some .merging || u.status == some .translating))

/-- The progress values an update list writes, each tagged with whether
    the writing update is a deliberate reset or cap. -/
def progVals (us : List Upd) : List (ℚ × Bool) :=
  us.filterMap (fun u => u.progress.map (fun p => (p, isResetUpd u)))

/-- Walk of a tagged value list: every decrease must be tagged. -/
def progressOkB : ℚ → List (ℚ × Bool) → Bool
  | _, [] => true
  | prev, v :: rest => (v.2 || decide (prev ≤ v.1)) && progressOkB v.1 rest

/-- The last value of a tagged list, or the seed when it is empty. -/
def endVal (p : ℚ) (l : List (ℚ × Bool)) : ℚ :=
  l.foldl (fun _ x => x.1) p

/-- Recognizes a finished hook event. -/
def isFinishedEv : HookEv → Bool
  | .finished => true
  | .downloading _ _ _ => false

/-- Well-formedness of the event stream of one extraction attempt: every
    percent parses, percents are non-decreasing and at most 100, and no
    downloading event follows a finished event. -/
def evsWFgo : List HookEv → ℚ → Bool
  | [], _ => true
  | .downloading none _ _ :: _, _ => false
  | .downloading (some p) _ _ :: rest, prev =>
    decide (prev ≤ p) && decide (p ≤ 100) && evsWFgo rest p
  | .finished :: rest, _ => rest.all isFinishedEv

/-- Well-formedness of an attempt event stream, starting from 0. -/
def evsWF (evs : List HookEv) : Bool := evsWFgo evs 0

/-- Non-decreasing list of naturals. -/
def sortedNats : List Nat → Bool
  | [] => true
  | [_] => true
  | a :: b :: rest => decide (a ≤ b) && sortedNats (b :: rest)

/-- Well-formedness of a run_download environment: both attempts report
    non-decreasing in-range percents and the transcoder reports
    non-decreasing output times. -/
def envWF (env : DlEnv) : Bool :=
  evsWF env.attempt1.events && evsWF env.attempt2.events
    && sortedNats env.burn.outTimes

/- ── Read routes and ownership (app.py lines 633 to 641, 713 to 757,
      867 to 876) ── -/

/-- Python jobs.get(job_id) under the record lock, over an association
    list model of the jobs dictionary. -/
def get_job (jobs : List (String × JobRec)) (jid : String) : Option JobRec :=
  (jobs.find? (fun kv => kv.1 == jid)).map (fun kv => kv.2)

/-- Response of the api_job route. -/
inductive JobResp
  | notFound
  | forbidden
  | okData (job : JobRec)
  deriving DecidableEq, Repr

/-- api_job from app.py: 404 when the job is unknown, 403 when the job
    has a non-empty owner different from the caller, otherwise the full
    record. -/
def api_job (jobs : List (String × JobRec)) (jid uid : String) : JobResp :=
  match get_job jobs jid with
  | none => .notFound
  | some job =>
    if job.user_id ≠ "" ∧ job.user_id ≠ uid then .forbidden else .okData job

/-- Response of one iteration of the api_progress stream generator. -/
inductive ProgressResp
  | restartError
  | snapshot (job : JobRec)
  deriving DecidableEq, Repr

/-- api_progress from app.py, one generator step after the grace wait:
    a synthetic terminal error when the job is unknown, otherwise the
    full record snapshot.  The caller id is accepted and ignored. -/
def api_progress (jobs : List (String × JobRec)) (jid _uid : String) :
    ProgressResp :=
  match get_job jobs jid with
  | none => .restartError
  | some job => .snapshot job

/-- Response of the file route. -/
inductive FileResp
  | err404
  | fileData (filepath : String) (filename : Option String)
  deriving DecidableEq, Repr

/-- _serve_job_file from app.py: 404 unless the job is done and the
    requested artifact path exists on disk (existsFs models the
    filesystem), otherwise the file at that path.  The caller id is
    accepted and ignored. -/
def serve_job_file (jobs : List (String × JobRec)) (existsFs : String → Bool)
    (jid ftype _uid : String) : FileResp :=
  match get_job jobs jid with
  | none => .err404
  | some job =>
    if job.status ≠ .done then .err404
    else
      let fp := if ftype = "burned" then job.burned_filepath
                else updField job.original_filepath job.filepath
      let fn := if ftype = "burned" then job.burned_filename
                else updField job.original_filename job.filename
      match fp with
      | none => .err404
      | some p => if existsFs p then .fileData p fn else .err404

/-- An update that touches only status, progress, speed and eta. -/
def statusSpeedOnly (u : Upd) : Bool :=
  u.title == none && u.filename == none && u.filepath == none &&
  u.original_filepath == none && u.original_filename == none &&
  u.burned_filepath == none && u.burned_filename == none &&
  u.burn_error == none && u.error == none && u.completed_at == false

/-- Concrete completed job owned by alice, used by the C3 theorems. -/
def sampleJob : JobRec :=
  { make_job "http://v" "alice" with
    status := .done, progress := 100,
    original_filepath := some "/d/v.mp4", original_filename := some "v.mp4",
    filename := some "v.mp4", filepath := some "/d/v.mp4",
    completed_at := true }

/-- Concrete run_download environment exercising the fallback retry with
    a failing fallback, used by the C9 witness. -/
def envC9 : DlEnv :=
  { attempt1 := { events := [], result := .error "ERROR: Requested format is not available", files := [] }
    attempt2 := { events := [], result := .error "network down", files := [] }
    sub := none
    burn := { durationUs := 0, outTimes := [], returncode := 0, stderr := "" } }

/-- Concrete run_download environment for a successful download whose
    burn-in stage fails, used by the C7 witness and the C2
    counterexample. -/
def envBurnFail : DlEnv :=
  { attempt1 := { events := [.finished], result := .ok "t", files := [("v.mp4", 7)] }
    attempt2 := { events := [], result := .ok "", files := [] }
    sub := some { isVtt := false, isZh := true }
    burn := { durationUs := 0, outTimes := [], returncode := 1, stderr := "boom" } }

/-- Concrete run_download environment for a plain successful download
    without burn-in, used by the C2 witness. -/
def envPlain : DlEnv :=
  { attempt1 := { events := [.downloading (some 50) "1MiB/s" "00:10", .finished],
                  result := .ok "t", files := [("v.mp4", 7)] }
    attempt2 := { events := [], result := .ok "", files := [] }
    sub := none
    burn := { durationUs := 0, outTimes := [], returncode := 0, stderr := "" } }

/- ════════════════════ Claim theorems ════════════════════ -/

/- ── C10 ── -/

/-- C10: a submission whose (stripped) quality string is not one of the
    five recognized FORMAT_MAP keys is not rejected: api_download answers
    with a created job whose quality was silently coerced to best, and
    run_download then uses the best format expression. -/
theorem c10_unrecognized_quality_coerced (rawUrl rawQuality : String) (burn : Bool)
    (hurl : pyStrip rawUrl ≠ "")
    (hq : formatMapMem (pyStrip rawQuality) = false) :
    api_download rawUrl rawQuality burn = .jobCreated "best" burn ∧
    apiDownloadQuality rawQuality = "best" ∧
    runDownloadFmt (apiDownloadQuality rawQuality) =
      "bestvideo+bestaudio/bestvideo/best" := by
  have hbest : apiDownloadQuality rawQuality = "best" := by
    by_cases h0 : rawQuality = ""
    · subst h0
      decide
    · unfold apiDownloadQuality
      rw [if_neg h0]
      show (if formatMapMem (pyStrip rawQuality) = true then pyStrip rawQuality
            else "best") = "best"
      rw [hq]
      simp
  refine ⟨?_, hbest, ?_⟩
  · unfold api_download
    rw [hbest, if_neg hurl]
  · rw [hbest]
    decide

/-- Witness for C10 at a concrete unrecognized quality. -/
theorem c10_witness :
    api_download "http://example/v" "999p" false = .jobCreated "best" false ∧
    apiDownloadQuality "999p" = "best" ∧
    runDownloadFmt (apiDownloadQuality "999p") =
      "bestvideo+bestaudio/bestvideo/best" :=
  c10_unrecognized_quality_coerced "http://example/v" "999p" false
    (by decide) (by decide)

/- ── C8 ── -/

/-- C8: the validation probe does use the first pool member as its
    cookie file, but running the check advances the rotation cursor
    (api_cookies_check calls _get_base_opts, which calls
    get_next_cookie), so the sequence of members returned by subsequent
    rotation calls differs from the sequence without the check: the
    claim that a check never consumes a rotation slot fails on the code,
    while its own comment and the specification assert it. -/
theorem c8_check_advances_cursor :
    (api_cookies_check ["yt_a.txt", "yt_b.txt"] 0).1 = .probe "yt_a.txt" ∧
    (api_cookies_check ["yt_a.txt", "yt_b.txt"] 0).2 = 1 ∧
    (get_next_cookie ["yt_a.txt", "yt_b.txt"]
        (api_cookies_check ["yt_a.txt", "yt_b.txt"] 0).2).1 = some "yt_b.txt" ∧
    (get_next_cookie ["yt_a.txt", "yt_b.txt"] 0).1 = some "yt_a.txt" := by
  decide

/- ── C4 ── -/

/-- Repair of a block list yields a timeline in which every block starts
    no earlier than the threaded previous end, provided every input
    block ends strictly after it starts. -/
theorem fixOverlaps_wellTimed (l : List (Nat × Nat)) :
    ∀ prevEnd, (∀ se ∈ l, se.1 < se.2) → wellTimed prevEnd (fixOverlaps prevEnd l) := by
  induction l with
  | nil => intro _ _; trivial
  | cons se rest ih =>
    intro prevEnd h
    have hse : se.1 < se.2 := h se (List.mem_cons_self se rest)
    have hrest : ∀ x ∈ rest, x.1 < x.2 :=
      fun x hx => h x (List.mem_cons_of_mem se hx)
    simp only [fixOverlaps, wellTimed]
    refine ⟨?_, ?_, ih _ hrest⟩ <;>
      · unfold fixEntry
        split_ifs <;> omega

/-- C4 amended: when a block starts earlier than the previous end it is
    shifted to previous end plus 50 ms, its end extended to the new
    start plus 1000 ms when the shift would invert it; consequently,
    provided every input block ends strictly after it starts, the
    written output has every block starting no earlier than the
    previous block ends and ending strictly after it starts.  (The
    as-written claim drops the proviso; a block that does not overlap
    its predecessor but already has start at or after its own end is
    written back unchanged, so for it end does not exceed start.) -/
theorem c4_amended (l : List (Nat × Nat)) (h : ∀ se ∈ l, se.1 < se.2) :
    wellTimed 0 (fixOverlaps 0 l) ∧
    (∀ prevEnd s e, s < prevEnd →
      fixEntry prevEnd (s, e) =
        if prevEnd + 50 ≥ e then (prevEnd + 50, prevEnd + 50 + 1000)
        else (prevEnd + 50, e)) := by
  refine ⟨fixOverlaps_wellTimed l 0 h, ?_⟩
  intro prevEnd s e hs
  unfold fixEntry
  rw [if_pos hs]

/-- Witness for C4 at a concrete overlapping block list. -/
theorem c4_amended_witness :
    (∀ se ∈ [((0 : Nat), (1000 : Nat)), (500, 1200)], se.1 < se.2) ∧
    wellTimed 0 (fixOverlaps 0 [(0, 1000), (500, 1200)]) ∧
    fixEntry 1000 (500, 1200) = (1050, 1200) :=
  ⟨by decide, (c4_amended [(0, 1000), (500, 1200)] (by decide)).1,
   by
    rw [(c4_amended [] (by decide)).2 1000 500 1200 (by decide)]
    decide⟩

/-- C4 counterexample: in a block list containing an overlapping
    adjacent pair, a later block whose start does not precede the
    previous end but whose own end precedes its start is written back
    unchanged, so the as-written conclusion that every output block
    ends strictly after it starts is false. -/
theorem c4_counterexample :
    fixOverlaps 0 [(0, 2000), (1000, 1500), (5000, 4000)] =
      [(0, 2000), (2050, 3050), (5000, 4000)] ∧
    (1000 : Nat) < 2000 ∧ ¬ ((5000 : Nat) < 4000) := by
  decide

/- ── C3 ── -/

/-- C3 amended: only the job status query enforces ownership (a job with
    a non-empty owner different from the caller gets 403 and no data);
    the progress stream and the artifact fetch ignore the caller id
    entirely (their response is invariant in it), so they reveal job
    data and files to any caller. -/
theorem c3_amended (jobs : List (String × JobRec)) (jid uid : String) :
    (∀ job, get_job jobs jid = some job → job.user_id ≠ "" → uid ≠ job.user_id →
        api_job jobs jid uid = .forbidden) ∧
    (∀ uid2, api_progress jobs jid uid = api_progress jobs jid uid2) ∧
    (∀ existsFs ftype uid2,
        serve_job_file jobs existsFs jid ftype uid =
          serve_job_file jobs existsFs jid ftype uid2) := by
  refine ⟨?_, fun _ => rfl, fun _ _ _ => rfl⟩
  intro job hj hne hneq
  unfold api_job
  rw [hj]
  exact if_pos ⟨hne, fun hcontra => hneq hcontra.symm⟩

/-- Witness for C3 amended at a concrete store and foreign caller. -/
theorem c3_amended_witness :
    api_job [("j1", sampleJob)] "j1" "bob" = .forbidden :=
  (c3_amended [("j1", sampleJob)] "j1" "bob").1 sampleJob rfl
    (by decide) (by decide)

/-- C3 counterexample: a job owned by alice is fully revealed to caller
    bob by the progress stream and its artifact is served to bob by the
    file route, so the claim that a read request of a different caller
    reveals no data of an owned job is false on the code. -/
theorem c3_counterexample :
    sampleJob.user_id = "alice" ∧ ("bob" : String) ≠ "alice" ∧
    api_progress [("j1", sampleJob)] "j1" "bob" = .snapshot sampleJob ∧
    serve_job_file [("j1", sampleJob)] (fun _ => true) "j1" "original" "bob" =
      .fileData "/d/v.mp4" (some "v.mp4") := by
  refine ⟨rfl, by decide, rfl, ?_⟩
  decide

/- ── C6 ── -/

/-- The part-assignment loop does not change the length of the
    translated list. -/
theorem assignPartsFrom_length (parts : List String) :
    ∀ i0 tr bl, (assignPartsFrom i0 tr bl parts).length = tr.length := by
  induction parts with
  | nil => intro i0 tr bl; rfl
  | cons p rest ih =>
    intro i0 tr bl
    show (assignPartsFrom (i0 + 1)
      (if i0 < bl then tr.set i0 (pyStrip p) else tr) bl rest).length = tr.length
    rw [ih]
    split_ifs <;> simp

/-- Entry j of the translated list after the part-assignment loop: the
    stripped part at offset j minus i0 when that part exists and j is
    inside the batch window, the previous entry otherwise. -/
theorem assignPartsFrom_getD (parts : List String) :
    ∀ i0 tr bl j, tr.length = bl → j < bl →
      (assignPartsFrom i0 tr bl parts).getD j "" =
        if i0 ≤ j ∧ j - i0 < parts.length then pyStrip (parts.getD (j - i0) "")
        else tr.getD j "" := by
  induction parts with
  | nil =>
    intro i0 tr bl j htr hj
    simp [assignPartsFrom]
  | cons p rest ih =>
    intro i0 tr bl j htr hj
    have htr2 : (if i0 < bl then tr.set i0 (pyStrip p) else tr).length = bl := by
      split_ifs <;> simp [htr]
    show (assignPartsFrom (i0 + 1)
      (if i0 < bl then tr.set i0 (pyStrip p) else tr) bl rest).getD j "" = _
    rw [ih (i0 + 1) _ bl j htr2 hj]
    simp only [List.length_cons]
    by_cases hA : i0 + 1 ≤ j ∧ j - (i0 + 1) < rest.length
    · rw [if_pos hA, if_pos (show i0 ≤ j ∧ j - i0 < rest.length + 1 by omega)]
      have hstep : j - i0 = (j - (i0 + 1)) + 1 := by omega
      rw [hstep, List.getD_cons_succ]
    · rw [if_neg hA]
      by_cases hB : i0 ≤ j ∧ j - i0 < rest.length + 1
      · have heq : j = i0 := by omega
        subst heq
        rw [if_pos hB, if_pos hj, Nat.sub_self, List.getD_cons_zero]
        have hjtr : j < tr.length := by rw [htr]; exact hj
        simp [List.getD_eq_getElem?_getD, List.getElem?_set_eq hjtr]
      · rw [if_neg hB]
        have hne : i0 ≠ j := by omega
        split_ifs with hw
        · simp [List.getD_eq_getElem?_getD, List.getElem?_set_ne hne]
        · rfl

/-- The replacement loop does not change the length. -/
theorem fillEmpty_length :
    ∀ (t o : List String), (fillEmpty t o).length = t.length := by
  intro t
  induction t with
  | nil => intro o; rfl
  | cons x ts ih =>
    intro o
    cases o with
    | nil => rfl
    | cons y os => simp [fillEmpty, ih]

/-- Entry j after the replacement loop: the original text when the
    translated entry is empty, the translated entry otherwise. -/
theorem fillEmpty_getD :
    ∀ (t o : List String) (j : Nat), j < t.length → j < o.length →
      (fillEmpty t o).getD j "" =
        if t.getD j "" = "" then o.getD j "" else t.getD j "" := by
  intro t
  induction t with
  | nil => intro o j h ho; simp at h
  | cons x ts ih =>
    intro o j ht ho
    cases o with
    | nil => simp at ho
    | cons y os =>
      cases j with
      | zero => simp [fillEmpty]
      | succ k =>
        simp only [fillEmpty, List.getD_cons_succ]
        exact ih os k (by simpa using ht) (by simpa using ho)

/-- C6: processing one translated batch result always yields exactly one
    output text per original block: the output length equals the batch
    length, and entry j is the stripped j-th part of the marker split
    when that part exists and is non-empty, and the original text of
    block j otherwise (a missing part reads as empty, and stripping the
    empty string is empty). -/
theorem c6_batch_count_preserved (batch : List String) (result : String) :
    (processBatchResult batch result).length = batch.length ∧
    (∀ j, j < batch.length →
      (processBatchResult batch result).getD j "" =
        if pyStrip ((reSplitMarker result).getD j "") = "" then batch.getD j ""
        else pyStrip ((reSplitMarker result).getD j "")) := by
  constructor
  · unfold processBatchResult
    rw [fillEmpty_length, assignPartsFrom_length]
    simp
  · intro j hj
    unfold processBatchResult
    have hlen : (assignPartsFrom 0 (List.replicate batch.length "")
        batch.length (reSplitMarker result)).length = batch.length := by
      rw [assignPartsFrom_length]; simp
    rw [fillEmpty_getD _ _ j (by rw [hlen]; exact hj) hj]
    rw [assignPartsFrom_getD _ 0 _ _ j (by simp) hj]
    have hrep : (List.replicate batch.length "").getD j "" = "" := by
      simp [List.getD_eq_getElem?_getD, List.getElem?_replicate]
      split_ifs <;> rfl
    rw [hrep]
    simp only [Nat.sub_zero, Nat.zero_le, true_and]
    by_cases hin : j < (reSplitMarker result).length
    · rw [if_pos hin]
    · rw [if_neg hin]
      have hout : (reSplitMarker result).getD j "" = "" := by
        simp [List.getD_eq_getElem?_getD,
          List.getElem?_eq_none (by omega : (reSplitMarker result).length ≤ j)]
      rw [hout]
      simp [show pyStrip "" = "" from rfl]

/-- Witness for C6: a batch of three blocks whose translated result has
    a corrupted separator (a run of two markers) and a missing third
    part keeps the block count and falls back to the original text. -/
theorem c6_witness :
    (processBatchResult ["hello", "world", "keep"] "你好◆◆世界").length = 3 ∧
    (processBatchResult ["hello", "world", "keep"] "你好◆◆世界").getD 2 "" = "keep" ∧
    (processBatchResult ["hello", "world", "keep"] "你好◆◆世界").getD 0 "" = "你好" := by
  have h := c6_batch_count_preserved ["hello", "world", "keep"] "你好◆◆世界"
  refine ⟨h.1.trans (by decide), ?_, ?_⟩
  · rw [h.2 2 (by decide)]
    decide
  · rw [h.2 0 (by decide)]
    decide

/- ── C1 ── -/

/-- Closed form of the renumber loop on a contiguous id range. -/
theorem renumberFrom_range' (m : Nat) :
    ∀ i a (qp : Nat → Nat) (x : Nat),
      renumberFrom i (List.range' a m) qp x =
        if a ≤ x ∧ x < a + m then x - a + i + 1 else qp x := by
  induction m with
  | zero =>
    intro i a qp x
    rw [if_neg (by omega)]
    rfl
  | succ m ih =>
    intro i a qp x
    rw [List.range'_succ]
    show renumberFrom (i + 1) (List.range' (a + 1) m)
      (fun y => if y = a then i + 1 else qp y) x = _
    rw [ih (i + 1) (a + 1) _ x]
    by_cases h1 : a + 1 ≤ x ∧ x < a + 1 + m
    · rw [if_pos h1, if_pos (by omega)]
      omega
    · rw [if_neg h1]
      by_cases h2 : x = a
      · subst h2
        rw [if_pos rfl, if_pos (by omega)]
        omega
      · rw [if_neg h2, if_neg (by omega)]

/-- Closed form of the scheduler state after submitting jobs 1..n into a
    fresh scheduler of capacity C: the first jobs (up to C and up to n)
    run and keep queue_pos 1, the others wait in submission order with
    contiguous positions 1 upward. -/
theorem submitN_closed (C : Nat) :
    ∀ n,
      (submitN C n).avail = C - n ∧
      (submitN C n).pending = List.range' (C + 1) (n - C) ∧
      (∀ j, (submitN C n).qpos j =
          if 1 ≤ j ∧ j ≤ C ∧ j ≤ n then 1
          else if C + 1 ≤ j ∧ j ≤ n then j - C else 0) ∧
      (∀ j, (submitN C n).stat j =
          if 1 ≤ j ∧ j ≤ C ∧ j ≤ n then .run
          else if C + 1 ≤ j ∧ j ≤ n then .queued else .pend) := by
  intro n
  induction n with
  | zero =>
    refine ⟨rfl, ?_, fun j => ?_, fun j => ?_⟩
    · show ([] : List Nat) = List.range' (C + 1) (0 - C)
      rw [Nat.zero_sub, List.range'_zero]
    · rw [if_neg (by omega), if_neg (by omega)]
      rfl
    · rw [if_neg (by omega), if_neg (by omega)]
      rfl
  | succ n ih =>
    obtain ⟨iha, ihp, ihq, ihs⟩ := ih
    have hstep : submitN C (n + 1) = submit (submitN C n) (n + 1) := by
      unfold submitN
      rw [show List.range' 1 (n + 1) = List.range' 1 n ++ [n + 1] by
            rw [List.range'_concat]
            simp [Nat.add_comm],
          List.foldl_append]
      rfl
    rw [hstep]
    by_cases hC : n < C
    · have hpos : 0 < (submitN C n).avail := by rw [iha]; omega
      have hnil : (submitN C n).pending = ([] : List Nat) := by
        rw [ihp, show n - C = 0 from by omega, List.range'_zero]
      have heq : submit (submitN C n) (n + 1) =
          { avail := (submitN C n).avail - 1
            pending := []
            qpos := fun x => if x = n + 1 then 1 else (submitN C n).qpos x
            stat := fun x => if x = n + 1 then SchedStatus.run
                     else (submitN C n).stat x } := by
        unfold submit
        rw [if_pos hpos, hnil]
        simp only [List.nil_append, List.erase_cons_head]
        rfl
      rw [heq]
      refine ⟨?_, ?_, fun j => ?_, fun j => ?_⟩
      · show (submitN C n).avail - 1 = C - (n + 1)
        rw [iha]
        omega
      · show ([] : List Nat) = List.range' (C + 1) (n + 1 - C)
        rw [show n + 1 - C = 0 from by omega, List.range'_zero]
      · show (if j = n + 1 then 1 else (submitN C n).qpos j) = _
        by_cases hj : j = n + 1
        · rw [if_pos hj, if_pos (by omega)]
        · rw [if_neg hj, ihq j]
          split_ifs <;> omega
      · show (if j = n + 1 then SchedStatus.run else (submitN C n).stat j) = _
        by_cases hj : j = n + 1
        · rw [if_pos hj, if_pos (by omega)]
        · rw [if_neg hj, ihs j]
          split_ifs <;> first | rfl | omega
    · have hz : ¬ 0 < (submitN C n).avail := by rw [iha]; omega
      have hlen : ((submitN C n).pending ++ [n + 1]).length = n + 1 - C := by
        rw [ihp]
        simp only [List.length_append, List.length_range', List.length_cons,
          List.length_nil]
        omega
      have harith : C + 1 + 1 * (n - C) = n + 1 := by omega
      have hpend : (submitN C n).pending ++ [n + 1] =
          List.range' (C + 1) (n + 1 - C) := by
        rw [ihp, show n + 1 - C = (n - C) + 1 from by omega, List.range'_concat,
          harith]
      have heq : submit (submitN C n) (n + 1) =
          { avail := (submitN C n).avail
            pending := (submitN C n).pending ++ [n + 1]
            qpos := fun x => if x = n + 1 then ((submitN C n).pending ++ [n + 1]).length
                     else (submitN C n).qpos x
            stat := fun x => if x = n + 1 then SchedStatus.queued
                     else (submitN C n).stat x } := by
        unfold submit
        rw [if_neg hz]
      rw [heq]
      refine ⟨?_, ?_, fun j => ?_, fun j => ?_⟩
      · show (submitN C n).avail = C - (n + 1)
        rw [iha]
        omega
      · exact hpend
      · show (if j = n + 1 then ((submitN C n).pending ++ [n + 1]).length
              else (submitN C n).qpos j) = _
        by_cases hj : j = n + 1
        · rw [if_pos hj, hlen, if_neg (by omega), if_pos (by omega)]
          omega
        · rw [if_neg hj, ihq j]
          split_ifs <;> omega
      · show (if j = n + 1 then SchedStatus.queued else (submitN C n).stat j) = _
        by_cases hj : j = n + 1
        · rw [if_pos hj, if_neg (by omega), if_pos (by omega)]
        · rw [if_neg hj, ihs j]
          split_ifs <;> first | rfl | omega

/-- Evaluation of releaseAdmit when a waiter exists: the head waiter is
    removed from the wait list, the rest renumbered, and it runs. -/
theorem releaseAdmit_cons (s : Sched) (w : Nat) (rest : List Nat)
    (h : s.pending = w :: rest) :
    releaseAdmit s =
      { avail := s.avail, pending := rest,
        qpos := renumberFrom 0 rest s.qpos,
        stat := fun x => if x = w then SchedStatus.run else s.stat x } := by
  unfold releaseAdmit
  rw [h]
  simp only [List.isEmpty_cons, Bool.false_eq_true, if_false, List.headD_cons,
    List.erase_cons_head]

/-- C1 amended: submitting C+K jobs into a fresh scheduler of capacity C
    makes exactly the first C start running immediately while the K
    others wait with contiguous queue_pos 1..K; when a running job
    completes, the head waiter is admitted and every remaining waiter
    has its position decremented by one; but a job holding a scheduler
    slot keeps queue_pos 1 (the last position it was assigned before
    acquiring the slot) rather than 0, because the worker never resets
    its own queue_pos after the acquire. -/
theorem c1_amended (C K : Nat) :
    (∀ j, 1 ≤ j → j ≤ C → (submitN C (C + K)).stat j = .run ∧
        (submitN C (C + K)).qpos j = 1) ∧
    (∀ j, C + 1 ≤ j → j ≤ C + K → (submitN C (C + K)).stat j = .queued ∧
        (submitN C (C + K)).qpos j = j - C) ∧
    (submitN C (C + K)).pending = List.range' (C + 1) K ∧
    (1 ≤ C → 1 ≤ K →
      (complete (submitN C (C + K)) 1).stat 1 = .done ∧
      (complete (submitN C (C + K)) 1).stat (C + 1) = .run ∧
      (complete (submitN C (C + K)) 1).qpos (C + 1) = 1 ∧
      (∀ j, C + 2 ≤ j → j ≤ C + K →
        (complete (submitN C (C + K)) 1).stat j = .queued ∧
        (complete (submitN C (C + K)) 1).qpos j = j - (C + 1))) := by
  obtain ⟨ha, hp, hq, hs⟩ := submitN_closed C (C + K)
  have hpK : (submitN C (C + K)).pending = List.range' (C + 1) K := by
    rw [hp, show C + K - C = K from by omega]
  refine ⟨fun j h1 h2 => ⟨?_, ?_⟩, fun j h1 h2 => ⟨?_, ?_⟩, hpK, ?_⟩
  · rw [hs j, if_pos (by omega)]
  · rw [hq j, if_pos (by omega)]
  · rw [hs j, if_neg (by omega), if_pos (by omega)]
  · rw [hq j, if_neg (by omega), if_pos (by omega)]
  · intro hC hK
    obtain ⟨k, hk⟩ : ∃ k, K = k + 1 := ⟨K - 1, by omega⟩
    have hpc : (submitN C (C + K)).pending = (C + 1) :: List.range' (C + 2) (K - 1) := by
      subst hk
      rw [hpK, List.range'_succ]
      rfl
    have hcomp : complete (submitN C (C + K)) 1 =
        { avail := (submitN C (C + K)).avail
          pending := List.range' (C + 2) (K - 1)
          qpos := renumberFrom 0 (List.range' (C + 2) (K - 1)) (submitN C (C + K)).qpos
          stat := fun x => if x = C + 1 then SchedStatus.run
                   else if x = 1 then SchedStatus.done
                   else (submitN C (C + K)).stat x } := by
      unfold complete
      exact releaseAdmit_cons _ (C + 1) (List.range' (C + 2) (K - 1)) hpc
    rw [hcomp]
    refine ⟨?_, ?_, ?_, fun j h1 h2 => ⟨?_, ?_⟩⟩
    · show (if 1 = C + 1 then SchedStatus.run
            else if 1 = 1 then SchedStatus.done else _) = SchedStatus.done
      rw [if_neg (by omega), if_pos rfl]
    · show (if C + 1 = C + 1 then SchedStatus.run else _) = SchedStatus.run
      rw [if_pos rfl]
    · show renumberFrom 0 (List.range' (C + 2) (K - 1)) (submitN C (C + K)).qpos
        (C + 1) = 1
      rw [renumberFrom_range', if_neg (by omega), hq (C + 1),
        if_neg (by omega), if_pos (by omega)]
      omega
    · show (if j = C + 1 then SchedStatus.run
            else if j = 1 then SchedStatus.done else (submitN C (C + K)).stat j)
          = SchedStatus.queued
      rw [if_neg (by omega), if_neg (by omega), hs j, if_neg (by omega),
        if_pos (by omega)]
    · show renumberFrom 0 (List.range' (C + 2) (K - 1)) (submitN C (C + K)).qpos j
        = j - (C + 1)
      rw [renumberFrom_range', if_pos (by omega)]
      omega

/-- Witness for C1 amended with capacity 2 and one waiter. -/
theorem c1_amended_witness :
    (submitN 2 3).stat 1 = .run ∧ (submitN 2 3).stat 3 = .queued ∧
    (submitN 2 3).qpos 3 = 1 ∧ (complete (submitN 2 3) 1).stat 3 = .run := by
  have h := c1_amended 2 1
  refine ⟨(h.1 1 (by omega) (by omega)).1, (h.2.1 3 (by omega) (by omega)).1,
    ?_, (h.2.2.2 (by omega) (by omega)).2.1⟩
  have := (h.2.1 3 (by omega) (by omega)).2
  simpa using this

/-- C1 counterexample: with capacity 1 a single submitted job runs
    immediately, yet its queue_pos is 1 and not 0, refuting the
    as-written conjunct that every job holding a scheduler slot has
    queue_pos 0. -/
theorem c1_counterexample :
    (submitN 1 1).stat 1 = .run ∧ ¬ (submitN 1 1).qpos 1 = 0 := by
  decide

/- ── C5 ── -/

/-- Count of naturals below N in a fixed residue class mod M. -/
theorem countP_range_mod (M r : Nat) (hM : 0 < M) (hr : r < M) :
    ∀ N, (List.range N).countP (fun k => decide (k % M = r)) =
      N / M + if r < N % M then 1 else 0 := by
  intro N
  induction N with
  | zero => simp
  | succ N ih =>
    rw [List.range_succ, List.countP_append, ih]
    have hsingle : (List.countP (fun k => decide (k % M = r)) [N]) =
        if N % M = r then 1 else 0 := by
      simp [List.countP_cons]
    rw [hsingle]
    have hs : N % M < M := Nat.mod_lt N hM
    have hdm := Nat.div_add_mod N M
    by_cases hcase : N % M + 1 = M
    · have h1 : N + 1 = M * (N / M + 1) := by
        rw [Nat.mul_succ]
        omega
      rw [h1, Nat.mul_div_cancel_left _ hM, Nat.mul_mod_right]
      by_cases hra : r < N % M <;> by_cases hrb : N % M = r <;>
        simp [hra, hrb] <;> omega
    · have hlt2 : N % M + 1 < M := by omega
      have h1 : N + 1 = M * (N / M) + (N % M + 1) := by omega
      have hdiv : (M * (N / M) + (N % M + 1)) / M = N / M := by
        rw [Nat.mul_add_div hM, Nat.div_eq_of_lt hlt2]
        omega
      have hmod : (M * (N / M) + (N % M + 1)) % M = N % M + 1 := by
        rw [Nat.mul_add_mod, Nat.mod_eq_of_lt hlt2]
      rw [h1, hdiv, hmod]
      by_cases hra : r < N % M <;> by_cases hrb : N % M = r <;>
        by_cases hrc : r < N % M + 1 <;> simp [hra, hrb, hrc] <;> omega

/-- Rotation indices and shifted residue classes coincide. -/
theorem rotIdx_count (M c i : Nat) (hM : 0 < M) (hi : i < M) (N : Nat) :
    (List.range N).countP (fun k => decide ((c + k) % M = i)) =
      (List.range N).countP
        (fun k => decide (k % M = (i + (M - c % M)) % M)) := by
  apply List.countP_congr
  intro k _
  simp only [decide_eq_true_eq]
  have hcm : c % M < M := Nat.mod_lt c hM
  have hdc := Nat.div_add_mod c M
  constructor
  · intro h
    have e1 : k % M = ((c + k) % M + (M - c % M)) % M := by
      rw [Nat.mod_add_mod]
      have e2 : c + k + (M - c % M) = k + M + M * (c / M) := by omega
      rw [e2, Nat.add_mul_mod_self_left, Nat.add_mod_right]
    rw [e1, h]
  · intro h
    rw [Nat.add_mod c k M, h, Nat.add_mod_mod]
    have e3 : c % M + (i + (M - c % M)) = i + M := by omega
    rw [e3, Nat.add_mod_right, Nat.mod_eq_of_lt hi]

/-- Each rotation index below M is hit floor(N/M) or ceil(N/M) times in
    N consecutive calls. -/
theorem rot_count_floor_ceil (M c i N : Nat) (hM : 0 < M) (hi : i < M) :
    (List.range N).countP (fun k => decide ((c + k) % M = i)) = N / M ∨
    (List.range N).countP (fun k => decide ((c + k) % M = i)) =
      (N + M - 1) / M := by
  rw [rotIdx_count M c i hM hi N,
    countP_range_mod M _ hM (Nat.mod_lt _ hM) N]
  by_cases hz : N % M = 0
  · left
    rw [hz]
    simp
  · by_cases hlt : (i + (M - c % M)) % M < N % M
    · right
      rw [if_pos hlt]
      have hs : N % M < M := Nat.mod_lt N hM
      have hdm := Nat.div_add_mod N M
      have hmul : M * (N / M + 1) = M * (N / M) + M := by ring
      have h1 : N + M - 1 = M * (N / M + 1) + (N % M - 1) := by omega
      have hdiv : (M * (N / M + 1) + (N % M - 1)) / M = N / M + 1 := by
        rw [Nat.mul_add_div hM, Nat.div_eq_of_lt (show N % M - 1 < M from by omega)]
      rw [h1, hdiv]
    · left
      rw [if_neg hlt]
      omega

/-- Evaluation of get_next_cookie on a non-empty pool. -/
theorem get_next_cookie_nonempty (pool : List String) (c : Nat)
    (hp : pool.isEmpty = false) :
    get_next_cookie pool c = (pool[c % pool.length]?, c % pool.length + 1) := by
  unfold get_next_cookie
  rw [hp]
  rfl

/-- The outputs of N rotation calls over a fixed non-empty pool are the
    members at indices (c + k) mod M for k = 0..N-1 in order. -/
theorem nextCookieCalls_outputs (pool : List String) (hp : pool.isEmpty = false) :
    ∀ N c, (nextCookieCalls pool N c).1 =
      (List.range N).map (fun k => pool[(c + k) % pool.length]?) := by
  intro N
  induction N with
  | zero => intro c; rfl
  | succ N ih =>
    intro c
    show (get_next_cookie pool c).1 ::
        (nextCookieCalls pool N (get_next_cookie pool c).2).1 = _
    rw [get_next_cookie_nonempty pool c hp]
    show pool[c % pool.length]? ::
        (nextCookieCalls pool N (c % pool.length + 1)).1 = _
    rw [ih (c % pool.length + 1), List.range_succ_eq_map]
    simp only [List.map_cons, List.map_map]
    congr 1
    apply List.map_congr_left
    intro k _
    show pool[(c % pool.length + 1 + k) % pool.length]? = _
    have e1 : c % pool.length + 1 + k = c % pool.length + (1 + k) := by omega
    have e2 : c + (1 + k) = c + (k + 1) := by omega
    rw [e1, Nat.mod_add_mod, e2]
    rfl

/-- With an empty pool every rotation call returns none. -/
theorem nextCookieCalls_nil (n : Nat) :
    ∀ c, (nextCookieCalls ([] : List String) n c).1 = List.replicate n none := by
  induction n with
  | zero => intro c; rfl
  | succ n ih =>
    intro c
    show (get_next_cookie [] c).1 ::
        (nextCookieCalls ([] : List String) n (get_next_cookie [] c).2).1 = _
    rw [show get_next_cookie ([] : List String) c = (none, c) from rfl, ih c]
    rfl

/-- C5: over a fixed non-empty pool of size M and any starting cursor,
    the k-th of N rotation calls returns the member at index
    (cursor + k) mod M, visiting members in cyclic round-robin order;
    each index below M is returned exactly floor(N/M) or ceil(N/M)
    times; and with an empty pool every call returns none. -/
theorem c5_round_robin (pool : List String) (c N : Nat)
    (hp : pool.isEmpty = false) (hN : pool.length < N) :
    ((nextCookieCalls pool N c).1 =
      (List.range N).map (fun k => pool[(c + k) % pool.length]?)) ∧
    (∀ i, i < pool.length →
      (List.range N).countP (fun k => decide ((c + k) % pool.length = i)) =
          N / pool.length ∨
      (List.range N).countP (fun k => decide ((c + k) % pool.length = i)) =
          (N + pool.length - 1) / pool.length) ∧
    (∀ n2 c2, (nextCookieCalls ([] : List String) n2 c2).1 =
        List.replicate n2 none) := by
  have hM : 0 < pool.length := by
    cases pool with
    | nil => simp at hp
    | cons a l => simp
  exact ⟨nextCookieCalls_outputs pool hp N c,
    fun i hi => rot_count_floor_ceil pool.length c i N hM hi,
    fun n2 c2 => nextCookieCalls_nil n2 c2⟩

/-- Witness for C5: five calls over a two-member pool. -/
theorem c5_witness :
    (nextCookieCalls ["yt_a.txt", "yt_b.txt"] 5 0).1 =
      [some "yt_a.txt", some "yt_b.txt", some "yt_a.txt", some "yt_b.txt",
       some "yt_a.txt"] ∧
    ((List.range 5).countP (fun k => decide ((0 + k) % 2 = 0)) = 5 / 2 ∨
     (List.range 5).countP (fun k => decide ((0 + k) % 2 = 0)) = (5 + 2 - 1) / 2) := by
  have h := c5_round_robin ["yt_a.txt", "yt_b.txt"] 0 5 (by decide) (by decide)
  exact ⟨h.1.trans (by decide), h.2.1 0 (by decide)⟩

/- ── run_download evaluation lemmas (claims C2, C7, C9) ── -/

/-- Folding updates that touch only status, progress, speed and eta
    leaves every other record field unchanged. -/
theorem foldl_statusSpeedOnly (us : List Upd) :
    ∀ r, us.all statusSpeedOnly = true →
      (us.foldl applyUpd r).title = r.title ∧
      (us.foldl applyUpd r).filename = r.filename ∧
      (us.foldl applyUpd r).filepath = r.filepath ∧
      (us.foldl applyUpd r).original_filepath = r.original_filepath ∧
      (us.foldl applyUpd r).original_filename = r.original_filename ∧
      (us.foldl applyUpd r).burned_filepath = r.burned_filepath ∧
      (us.foldl applyUpd r).burned_filename = r.burned_filename ∧
      (us.foldl applyUpd r).burn_error = r.burn_error ∧
      (us.foldl applyUpd r).error = r.error ∧
      (us.foldl applyUpd r).completed_at = r.completed_at := by
  induction us with
  | nil =>
    intro r _
    exact ⟨rfl, rfl, rfl, rfl, rfl, rfl, rfl, rfl, rfl, rfl⟩
  | cons u us ih =>
    intro r hall
    simp only [List.all_cons, Bool.and_eq_true] at hall
    obtain ⟨hu, hrest⟩ := hall
    simp only [statusSpeedOnly, Bool.and_eq_true, beq_iff_eq] at hu
    obtain ⟨⟨⟨⟨⟨⟨⟨⟨⟨h1, h2⟩, h3⟩, h4⟩, h5⟩, h6⟩, h7⟩, h8⟩, h9⟩, h10⟩ := hu
    rw [List.foldl_cons]
    have hstep := ih (applyUpd r u) hrest
    refine ⟨?_, ?_, ?_, ?_, ?_, ?_, ?_, ?_, ?_, ?_⟩
    · rw [hstep.1]
      simp [applyUpd, h1]
    · rw [hstep.2.1]
      simp [applyUpd, updField, h2]
    · rw [hstep.2.2.1]
      simp [applyUpd, updField, h3]
    · rw [hstep.2.2.2.1]
      simp [applyUpd, updField, h4]
    · rw [hstep.2.2.2.2.1]
      simp [applyUpd, updField, h5]
    · rw [hstep.2.2.2.2.2.1]
      simp [applyUpd, updField, h6]
    · rw [hstep.2.2.2.2.2.2.1]
      simp [applyUpd, updField, h7]
    · rw [hstep.2.2.2.2.2.2.2.1]
      simp [applyUpd, updField, h8]
    · rw [hstep.2.2.2.2.2.2.2.2.1]
      simp [applyUpd, updField, h9]
    · rw [hstep.2.2.2.2.2.2.2.2.2]
      simp [applyUpd, h10]

/-- Hook updates touch only status, progress, speed and eta. -/
theorem hookUpds_statusSpeedOnly (evs : List HookEv) :
    (evs.map hookUpd).all statusSpeedOnly = true := by
  induction evs with
  | nil => rfl
  | cons ev rest ih =>
    cases ev <;> simp [hookUpd, statusSpeedOnly, ih]

/-- Evaluation of run_download when the first attempt fails with an error
    that does not contain the format-unavailable marker. -/
theorem runDownload_err_nomark (jobDir quality : String) (b : Bool) (env : DlEnv)
    (e : String) (h1 : env.attempt1.result = .error e)
    (hm : strContains e "Requested format is not available" = false) :
    runDownload jobDir quality b env =
      ⟨env.attempt1.events.map hookUpd ++
        [{ status := some .error, error := some e, completed_at := true }],
       [runDownloadFmt quality], none⟩ := by
  simp only [runDownload, h1]
  rw [if_neg (by simp [hm])]

/-- Evaluation of run_download when the first attempt fails with the
    format-unavailable marker and the fallback attempt also fails. -/
theorem runDownload_err_mark_err (jobDir quality : String) (b : Bool) (env : DlEnv)
    (e e2 : String) (h1 : env.attempt1.result = .error e)
    (hm : strContains e "Requested format is not available" = true)
    (h2 : env.attempt2.result = .error e2) :
    runDownload jobDir quality b env =
      ⟨env.attempt1.events.map hookUpd ++
        [{ status := some .downloading, progress := some 0 }] ++
        env.attempt2.events.map hookUpd ++
        [{ status := some .error, error := some e2, completed_at := true }],
       [runDownloadFmt quality, "best"], some []⟩ := by
  simp only [runDownload, h1, h2]
  rw [if_pos hm]

/-- Evaluation of run_download when the first attempt fails with the
    format-unavailable marker and the fallback attempt succeeds. -/
theorem runDownload_err_mark_ok (jobDir quality : String) (b : Bool) (env : DlEnv)
    (e title : String) (h1 : env.attempt1.result = .error e)
    (hm : strContains e "Requested format is not available" = true)
    (h2 : env.attempt2.result = .ok title) :
    runDownload jobDir quality b env =
      ⟨env.attempt1.events.map hookUpd ++
        [{ status := some .downloading, progress := some 0 }] ++
        env.attempt2.events.map hookUpd ++
        runDownloadSuccess jobDir (if (quality == "audio") = true then false else b)
          env title env.attempt2.files,
       [runDownloadFmt quality, "best"], some []⟩ := by
  simp only [runDownload, h1, h2]
  rw [if_pos hm]

/-- Evaluation of run_download when the first attempt succeeds. -/
theorem runDownload_ok (jobDir quality : String) (b : Bool) (env : DlEnv)
    (title : String) (h1 : env.attempt1.result = .ok title) :
    runDownload jobDir quality b env =
      ⟨env.attempt1.events.map hookUpd ++
        runDownloadSuccess jobDir (if (quality == "audio") = true then false else b)
          env title env.attempt1.files,
       [runDownloadFmt quality], none⟩ := by
  simp only [runDownload, h1]

/- ── C9 ── -/

/-- C9: when the first extraction attempt fails with the specific
    format-unavailable error, run_download clears the working directory
    and retries exactly once with the unrestricted best expression (two
    attempts, never a third; a failing retry makes the job fatal); any
    other extraction error is not retried and finalizes the job with
    status error carrying that message. -/
theorem c9_format_fallback (jobDir quality url uid : String) (b : Bool)
    (env : DlEnv) (e : String) (h1 : env.attempt1.result = .error e) :
    (strContains e "Requested format is not available" = true →
      (runDownload jobDir quality b env).attempts =
          [runDownloadFmt quality, "best"] ∧
      (runDownload jobDir quality b env).retryDir = some [] ∧
      (∀ e2, env.attempt2.result = .error e2 →
        (finalRecord (make_job url uid) (runDownload jobDir quality b env)).status
            = .error ∧
        (finalRecord (make_job url uid) (runDownload jobDir quality b env)).error
            = some e2)) ∧
    (strContains e "Requested format is not available" = false →
      (runDownload jobDir quality b env).attempts = [runDownloadFmt quality] ∧
      (runDownload jobDir quality b env).retryDir = none ∧
      (finalRecord (make_job url uid) (runDownload jobDir quality b env)).status
          = .error ∧
      (finalRecord (make_job url uid) (runDownload jobDir quality b env)).error
          = some e) := by
  constructor
  · intro hm
    refine ⟨?_, ?_, ?_⟩
    · cases h2 : env.attempt2.result with
      | error e2 => rw [runDownload_err_mark_err jobDir quality b env e e2 h1 hm h2]
      | ok t2 => rw [runDownload_err_mark_ok jobDir quality b env e t2 h1 hm h2]
    · cases h2 : env.attempt2.result with
      | error e2 => rw [runDownload_err_mark_err jobDir quality b env e e2 h1 hm h2]
      | ok t2 => rw [runDownload_err_mark_ok jobDir quality b env e t2 h1 hm h2]
    · intro e2 h2
      rw [runDownload_err_mark_err jobDir quality b env e e2 h1 hm h2]
      unfold finalRecord
      rw [show (⟨env.attempt1.events.map hookUpd ++
            [{ status := some .downloading, progress := some 0 }] ++
            env.attempt2.events.map hookUpd ++
            [{ status := some JStatus.error, error := some e2, completed_at := true }],
          [runDownloadFmt quality, "best"], some []⟩ : RunResult).updates =
          env.attempt1.events.map hookUpd ++
            [{ status := some .downloading, progress := some 0 }] ++
            env.attempt2.events.map hookUpd ++
            [{ status := some JStatus.error, error := some e2, completed_at := true }]
          from rfl,
        List.foldl_append]
      constructor <;> simp [applyUpd, updField]
  · intro hm
    rw [runDownload_err_nomark jobDir quality b env e h1 hm]
    refine ⟨rfl, rfl, ?_, ?_⟩ <;>
      · unfold finalRecord
        rw [show (⟨env.attempt1.events.map hookUpd ++
              [{ status := some JStatus.error, error := some e,
                 completed_at := true }],
            [runDownloadFmt quality], none⟩ : RunResult).updates =
            env.attempt1.events.map hookUpd ++
              [{ status := some JStatus.error, error := some e,
                 completed_at := true }]
            from rfl,
          List.foldl_append]
        simp [applyUpd, updField]

/-- Witness for C9 at a concrete marker error with failing fallback. -/
theorem c9_witness :
    (runDownload "d" "720p" false envC9).attempts =
      [runDownloadFmt "720p", "best"] ∧
    (runDownload "d" "720p" false envC9).retryDir = some [] ∧
    (finalRecord (make_job "u" "a") (runDownload "d" "720p" false envC9)).status
      = .error := by
  have h := (c9_format_fallback "d" "720p" "u" "a" false envC9
    "ERROR: Requested format is not available" rfl).1 (by decide)
  exact ⟨h.1, h.2.1, (h.2.2 "network down" rfl).1⟩

/- ── C7 ── -/

/-- Burn-progress updates touch only status and progress. -/
theorem cbUpds_statusSpeedOnly (pcts : List Nat) :
    ((pcts.map burnCbUpd).all statusSpeedOnly) = true := by
  induction pcts with
  | nil => rfl
  | cons p rest ih => simp [statusSpeedOnly, burnCbUpd, ih]

/-- Evaluation of the success tail of run_download when burn-in is on,
    a subtitle was found, and the transcoder exits non-zero. -/
theorem runDownloadSuccess_burnfail (jobDir title : String) (env : DlEnv)
    (sf : SubFile) (out : String × Nat) (files : List (String × Nat))
    (hout : pickOutput files = some out) (hsub : env.sub = some sf)
    (hrc : env.burn.returncode ≠ 0) :
    runDownloadSuccess jobDir true env title files =
      [{ original_filepath := some (jobDir ++ "/" ++ out.1),
         original_filename := some out.1 }] ++
      ((if sf.isZh then []
        else [{ status := some .translating, progress := some 99 }]) ++
       [{ status := some .burning, progress := some 0 }] ++
       (burnPcts env.burn).map burnCbUpd ++
       [{ burn_error := some ("字幕烧录失败（可下载原始视频）：" ++
            burnErrorMsg env.burn) }]) ++
      [{ status := some .done, progress := some 100, title := some title,
         filename := some out.1, filepath := some (jobDir ++ "/" ++ out.1),
         completed_at := true }] := by
  have hmsg : (if env.burn.returncode ≠ 0 then some (burnErrorMsg env.burn)
      else none) = some (burnErrorMsg env.burn) := if_pos hrc
  simp [runDownloadSuccess, hout, hsub, burnSubtitleWithProgress, hmsg]

/-- C7: when the base download succeeds (an output file exists), burn-in
    was requested on a non-audio job, a subtitle was found, and the
    transcoder fails, the job still finishes with status done; the
    failure is recorded only in the non-fatal burn_error field, which
    carries the fixed prefix plus the raised message containing the last
    800 characters of the diagnostic output; the fatal error field stays
    unset; and the original artifact remains recorded and is also
    offered through the backward-compatible filename and filepath. -/
theorem c7_burn_failure_nonfatal (jobDir quality url uid title : String)
    (env : DlEnv) (sf : SubFile) (out : String × Nat)
    (hq : (quality == "audio") = false)
    (h1 : env.attempt1.result = .ok title)
    (hout : pickOutput env.attempt1.files = some out)
    (hsub : env.sub = some sf)
    (hrc : env.burn.returncode ≠ 0) :
    (finalRecord (make_job url uid) (runDownload jobDir quality true env)).status
        = .done ∧
    (finalRecord (make_job url uid) (runDownload jobDir quality true env)).error
        = none ∧
    (finalRecord (make_job url uid) (runDownload jobDir quality true env)).burn_error
        = some ("字幕烧录失败（可下载原始视频）：" ++ burnErrorMsg env.burn) ∧
    (finalRecord (make_job url uid)
        (runDownload jobDir quality true env)).original_filepath
        = some (jobDir ++ "/" ++ out.1) ∧
    (finalRecord (make_job url uid)
        (runDownload jobDir quality true env)).original_filename = some out.1 ∧
    (finalRecord (make_job url uid) (runDownload jobDir quality true env)).filepath
        = some (jobDir ++ "/" ++ out.1) ∧
    (finalRecord (make_job url uid) (runDownload jobDir quality true env)).filename
        = some out.1 ∧
    (finalRecord (make_job url uid)
        (runDownload jobDir quality true env)).burned_filepath = none ∧
    (finalRecord (make_job url uid)
        (runDownload jobDir quality true env)).completed_at = true := by
  rw [runDownload_ok jobDir quality true env title h1,
    show (if (quality == "audio") = true then false else true) = true by
      rw [hq]
      simp,
    runDownloadSuccess_burnfail jobDir title env sf out env.attempt1.files hout
      hsub hrc]
  unfold finalRecord
  generalize hus1 : env.attempt1.events.map hookUpd = us1
  have hus1all : us1.all statusSpeedOnly = true := by
    rw [← hus1]
    exact hookUpds_statusSpeedOnly env.attempt1.events
  generalize hmid : (if sf.isZh then ([] : List Upd)
      else [({ status := some JStatus.translating, progress := some 99 } : Upd)]) ++
      [({ status := some JStatus.burning, progress := some 0 } : Upd)] ++
      (burnPcts env.burn).map burnCbUpd = mid
  have hmidall : mid.all statusSpeedOnly = true := by
    rw [← hmid]
    simp only [List.all_append, Bool.and_eq_true]
    refine ⟨⟨?_, by simp [statusSpeedOnly]⟩, cbUpds_statusSpeedOnly _⟩
    cases h : sf.isZh <;> simp [statusSpeedOnly]
  simp only [List.foldl_append, List.foldl_cons, List.foldl_nil]
  have hr1 := foldl_statusSpeedOnly us1 (make_job url uid) hus1all
  generalize hr2 : applyUpd (List.foldl applyUpd (make_job url uid) us1)
      ({ original_filepath := some (jobDir ++ "/" ++ out.1),
         original_filename := some out.1 } : Upd) = r2
  have hr2ofp : r2.original_filepath = some (jobDir ++ "/" ++ out.1) := by
    rw [← hr2]
    simp [applyUpd, updField]
  have hr2ofn : r2.original_filename = some out.1 := by
    rw [← hr2]
    simp [applyUpd, updField]
  have hr2err : r2.error = none := by
    rw [← hr2]
    show updField none (List.foldl applyUpd (make_job url uid) us1).error = none
    rw [hr1.2.2.2.2.2.2.2.2.1]
    rfl
  have hr2bfp : r2.burned_filepath = none := by
    rw [← hr2]
    show updField none (List.foldl applyUpd (make_job url uid) us1).burned_filepath
      = none
    rw [hr1.2.2.2.2.2.1]
    rfl
  generalize hrW : List.foldl applyUpd r2 mid = rW
  have hW := foldl_statusSpeedOnly mid r2 hmidall
  rw [hrW] at hW
  refine ⟨?_, ?_, ?_, ?_, ?_, ?_, ?_, ?_, ?_⟩ <;>
    simp [applyUpd, updField, hW.2.2.2.1, hW.2.2.2.2.1, hW.2.2.2.2.2.1,
      hW.2.2.2.2.2.2.2.2.1, hr2ofp, hr2ofn, hr2err, hr2bfp]

/- ── C2 ── -/

/-- Monotonicity of round-half-to-even. -/
theorem roundHalfEven_mono {x y : ℚ} (hxy : x ≤ y) :
    roundHalfEven x ≤ roundHalfEven y := by
  have hfx := Int.floor_mono hxy
  have hx1 : roundHalfEven x ≤ ⌊x⌋ + 1 := by
    unfold roundHalfEven
    split_ifs <;> omega
  have hy0 : ⌊y⌋ ≤ roundHalfEven y := by
    unfold roundHalfEven
    split_ifs <;> omega
  rcases lt_or_eq_of_le hfx with hlt | heq
  · omega
  · have hfr : Int.fract x ≤ Int.fract y := by
      rw [Int.fract, Int.fract, heq]
      exact sub_le_sub_right hxy _
    unfold roundHalfEven
    rw [heq]
    split_ifs <;> first | omega | linarith

/-- Monotonicity of the Python one-decimal rounding. -/
theorem pyRound1_mono {x y : ℚ} (h : x ≤ y) : pyRound1 x ≤ pyRound1 y := by
  unfold pyRound1
  have h10 : (10 : ℚ) * x ≤ 10 * y := by linarith
  have hr : ((roundHalfEven (10 * x) : ℤ) : ℚ) ≤ ((roundHalfEven (10 * y) : ℤ) : ℚ) := by
    exact_mod_cast roundHalfEven_mono h10
  linarith

/-- Round-half-to-even of an integer is the integer. -/
theorem roundHalfEven_intCast (z : ℤ) : roundHalfEven ((z : ℚ)) = z := by
  unfold roundHalfEven
  rw [Int.fract_intCast]
  norm_num

/-- Rounding fixes 0. -/
theorem pyRound1_zero : pyRound1 0 = 0 := by
  unfold pyRound1
  rw [show (10 : ℚ) * 0 = ((0 : ℤ) : ℚ) by norm_num, roundHalfEven_intCast]
  norm_num

/-- Rounding fixes 100. -/
theorem pyRound1_hundred : pyRound1 100 = 100 := by
  unfold pyRound1
  rw [show (10 : ℚ) * 100 = ((1000 : ℤ) : ℚ) by norm_num, roundHalfEven_intCast]
  norm_num

/-- The tagged-walk check distributes over append. -/
theorem progressOkB_append (l1 : List (ℚ × Bool)) :
    ∀ (l2 : List (ℚ × Bool)) (p : ℚ),
      progressOkB p (l1 ++ l2) =
        (progressOkB p l1 && progressOkB (endVal p l1) l2) := by
  induction l1 with
  | nil => intro l2 p; rfl
  | cons v rest ih =>
    intro l2 p
    simp only [List.cons_append, progressOkB, endVal, List.foldl_cons,
      List.append_eq]
    rw [ih l2 v.1, Bool.and_assoc]
    rfl

/-- The end value distributes over append. -/
theorem endVal_append (l1 l2 : List (ℚ × Bool)) (p : ℚ) :
    endVal p (l1 ++ l2) = endVal (endVal p l1) l2 := by
  simp [endVal, List.foldl_append]

/-- A finished-only tail keeps the check true from any seed. -/
theorem progressOkB_allFinished (evs : List HookEv) :
    ∀ prev : ℚ, evs.all isFinishedEv = true →
      progressOkB prev (progVals (evs.map hookUpd)) = true := by
  induction evs with
  | nil => intro prev _; rfl
  | cons ev rest ih =>
    intro prev hall
    simp only [List.all_cons, Bool.and_eq_true] at hall
    cases ev with
    | downloading p s e => simp [isFinishedEv] at hall
    | finished =>
      simp only [List.map_cons, progVals, List.filterMap_cons, hookUpd,
        Option.map_some]
      show progressOkB prev ((99, isResetUpd (hookUpd .finished)) ::
        List.filterMap _ (rest.map hookUpd)) = true
      simp only [progressOkB, Bool.and_eq_true]
      exact ⟨by simp [isResetUpd, hookUpd], ih 99 hall.2⟩

/-- A finished-only tail keeps the end value at most 100. -/
theorem endVal_allFinished (evs : List HookEv) :
    ∀ p : ℚ, evs.all isFinishedEv = true → p ≤ 100 →
      endVal p (progVals (evs.map hookUpd)) ≤ 100 := by
  induction evs with
  | nil => intro p _ hp; exact hp
  | cons ev rest ih =>
    intro p hall hp
    simp only [List.all_cons, Bool.and_eq_true] at hall
    cases ev with
    | downloading q s e => simp [isFinishedEv] at hall
    | finished =>
      simp only [List.map_cons, progVals, List.filterMap_cons, hookUpd,
        Option.map_some]
      show endVal p ((99, isResetUpd (hookUpd .finished)) ::
        List.filterMap _ (rest.map hookUpd)) ≤ 100
      simp only [endVal, List.foldl_cons]
      exact ih 99 hall.2 (by norm_num)

/-- Hook updates of a well-formed event stream keep the check true
    from any seed at most the rounded carried percent. -/
theorem progressOkB_hook (evs : List HookEv) :
    ∀ (q prev : ℚ), evsWFgo evs q = true → prev ≤ pyRound1 q →
      progressOkB prev (progVals (evs.map hookUpd)) = true := by
  induction evs with
  | nil => intro q prev _ _; rfl
  | cons ev rest ih =>
    intro q prev hwf hprev
    cases ev with
    | downloading pct s e =>
      cases pct with
      | none => simp [evsWFgo] at hwf
      | some p =>
        simp only [evsWFgo, Bool.and_eq_true, decide_eq_true_eq] at hwf
        obtain ⟨⟨hqp, hp100⟩, hrest⟩ := hwf
        simp only [List.map_cons, progVals, List.filterMap_cons, hookUpd,
          Option.map_some]
        show progressOkB prev
          ((pyRound1 ((some p).getD 0), isResetUpd (hookUpd (.downloading (some p) s e))) ::
            List.filterMap _ (rest.map hookUpd)) = true
        simp only [progressOkB, Bool.and_eq_true, Option.getD_some,
          Bool.or_eq_true]
        refine ⟨Or.inr ?_, ih p (pyRound1 p) hrest (le_refl _)⟩
        simp only [decide_eq_true_eq]
        exact hprev.trans (pyRound1_mono hqp)
    | finished =>
      simp only [evsWFgo] at hwf
      simp only [List.map_cons, progVals, List.filterMap_cons, hookUpd,
        Option.map_some]
      show progressOkB prev ((99, isResetUpd (hookUpd .finished)) ::
        List.filterMap _ (rest.map hookUpd)) = true
      simp only [progressOkB, Bool.and_eq_true]
      exact ⟨by simp [isResetUpd, hookUpd], progressOkB_allFinished rest 99 hwf⟩

/-- Hook updates of a well-formed event stream keep the end value at
    most 100. -/
theorem endVal_hook_le (evs : List HookEv) :
    ∀ (q p : ℚ), evsWFgo evs q = true → p ≤ 100 →
      endVal p (progVals (evs.map hookUpd)) ≤ 100 := by
  induction evs with
  | nil => intro q p _ hp; exact hp
  | cons ev rest ih =>
    intro q p hwf hp
    cases ev with
    | downloading pct s e =>
      cases pct with
      | none => simp [evsWFgo] at hwf
      | some pc =>
        simp only [evsWFgo, Bool.and_eq_true, decide_eq_true_eq] at hwf
        obtain ⟨⟨hqp, hp100⟩, hrest⟩ := hwf
        simp only [List.map_cons, progVals, List.filterMap_cons, hookUpd,
          Option.map_some]
        show endVal p
          ((pyRound1 ((some pc).getD 0), isResetUpd (hookUpd (.downloading (some pc) s e))) ::
            List.filterMap _ (rest.map hookUpd)) ≤ 100
        simp only [endVal, List.foldl_cons, Option.getD_some]
        exact ih pc (pyRound1 pc) hrest
          ((pyRound1_mono hp100).trans_eq pyRound1_hundred)
    | finished =>
      simp only [evsWFgo] at hwf
      simp only [List.map_cons, progVals, List.filterMap_cons, hookUpd,
        Option.map_some]
      show endVal p ((99, isResetUpd (hookUpd .finished)) ::
        List.filterMap _ (rest.map hookUpd)) ≤ 100
      simp only [endVal, List.foldl_cons]
      exact endVal_allFinished rest 99 hwf (by norm_num)

/-- Burn callback updates from a sorted percentage list keep the check
    true starting from any seed at most the carried percentage. -/
theorem progressOkB_burnCb (pcts : List Nat) :
    ∀ prevN : Nat, sortedNats (prevN :: pcts) = true →
      progressOkB (prevN : ℚ) (progVals (pcts.map burnCbUpd)) = true := by
  induction pcts with
  | nil => intro _ _; rfl
  | cons n rest ih =>
    intro prevN hs
    simp only [sortedNats, Bool.and_eq_true, decide_eq_true_eq] at hs
    simp only [List.map_cons, progVals, List.filterMap_cons, burnCbUpd,
      Option.map_some]
    show progressOkB (prevN : ℚ) (((n : ℚ), isResetUpd (burnCbUpd n)) ::
      List.filterMap _ (rest.map burnCbUpd)) = true
    simp only [progressOkB, Bool.and_eq_true, Bool.or_eq_true,
      decide_eq_true_eq]
    refine ⟨Or.inr (by exact_mod_cast hs.1), ?_⟩
    have := ih n hs.2
    simpa [progVals, burnCbUpd] using this

/-- Burn callback values from an everywhere at most 99 list keep the
    end value at most 99. -/
theorem endVal_burnCb (pcts : List Nat) :
    ∀ p : ℚ, p ≤ 99 → (∀ x ∈ pcts, x ≤ 99) →
      endVal p (progVals (pcts.map burnCbUpd)) ≤ 99 := by
  induction pcts with
  | nil => intro p hp _; exact hp
  | cons n rest ih =>
    intro p hp hb
    simp only [List.map_cons, progVals, List.filterMap_cons, burnCbUpd,
      Option.map_some]
    show endVal p (((n : ℚ), isResetUpd (burnCbUpd n)) ::
      List.filterMap _ (rest.map burnCbUpd)) ≤ 99
    simp only [endVal, List.foldl_cons]
    have hn : (n : ℚ) ≤ 99 := by
      exact_mod_cast hb n (List.mem_cons_self n rest)
    have := ih (n : ℚ) hn (fun x hx => hb x (List.mem_cons_of_mem n hx))
    simpa [progVals, burnCbUpd, endVal] using this

/-- Every burn percentage is capped at 99. -/
theorem burnPcts_le (b : BurnEnv) : ∀ x ∈ burnPcts b, x ≤ 99 := by
  intro x hx
  unfold burnPcts at hx
  split_ifs at hx with h
  · obtain ⟨cur, _, rfl⟩ := List.mem_map.mp hx
    exact min_le_left _ _
  · simp at hx

/-- Mapping a monotone function preserves sortedness. -/
theorem sortedNats_map_mono (f : Nat → Nat) (hf : ∀ a b, a ≤ b → f a ≤ f b) :
    ∀ l, sortedNats l = true → sortedNats (l.map f) = true := by
  intro l
  induction l with
  | nil => intro _; rfl
  | cons a rest ih =>
    cases rest with
    | nil => intro _; rfl
    | cons b rest2 =>
      intro hs
      simp only [sortedNats, Bool.and_eq_true, decide_eq_true_eq] at hs
      simp only [List.map_cons]
      show (decide (f a ≤ f b) && sortedNats (f b :: rest2.map f)) = true
      simp only [Bool.and_eq_true, decide_eq_true_eq]
      refine ⟨hf a b hs.1, ?_⟩
      have := ih hs.2
      simpa using this

/-- The burn percentages inherit sortedness from the output times. -/
theorem burnPcts_sorted (b : BurnEnv) (h : sortedNats b.outTimes = true) :
    sortedNats (burnPcts b) = true := by
  unfold burnPcts
  split_ifs with hd
  · refine sortedNats_map_mono _ (fun x y hxy => ?_) _ h
    exact min_le_min (le_refl 99)
      (Nat.div_le_div_right (Nat.mul_le_mul_right 100 hxy))
  · rfl

/-- The sorted check extends to a zero head. -/
theorem sortedNats_zero_cons (l : List Nat) (h : sortedNats l = true) :
    sortedNats (0 :: l) = true := by
  cases l with
  | nil => rfl
  | cons a rest =>
    show (decide (0 ≤ a) && sortedNats (a :: rest)) = true
    simp [h]

/-- A flagged entry resets the walk seed. -/
theorem progressOkB_flag_cons (x : ℚ) (rest : List (ℚ × Bool)) (p : ℚ) :
    progressOkB p ((x, true) :: rest) = progressOkB x rest := by
  simp [progressOkB]

/-- The success tail of run_download passes the tagged walk from any
    seed at most 100, provided the transcoder output times are sorted. -/
theorem progressOkB_success (jobDir title : String) (env : DlEnv)
    (burnSub : Bool) (files : List (String × Nat)) (prev : ℚ)
    (hprev : prev ≤ 100) (hsort : sortedNats env.burn.outTimes = true) :
    progressOkB prev (progVals (runDownloadSuccess jobDir burnSub env title files))
      = true := by
  have hcb : progressOkB 0 (progVals ((burnPcts env.burn).map burnCbUpd)) = true := by
    have h0 := progressOkB_burnCb (burnPcts env.burn) 0
      (sortedNats_zero_cons _ (burnPcts_sorted env.burn hsort))
    simpa using h0
  have hcbe : endVal 0 (progVals ((burnPcts env.burn).map burnCbUpd)) ≤ 99 :=
    endVal_burnCb _ 0 (by norm_num) (burnPcts_le env.burn)
  have hdone : ∀ f : Bool, progressOkB (endVal 0
      (progVals ((burnPcts env.burn).map burnCbUpd))) [(100, f)] = true := by
    intro f
    simp only [progressOkB, Bool.and_eq_true, Bool.or_eq_true, Bool.and_true,
      decide_eq_true_eq]
    exact Or.inr (hcbe.trans (by norm_num))
  rcases hpo : pickOutput files with _ | out
  · simp [runDownloadSuccess, hpo, progVals, progressOkB]
  · cases burnSub with
    | false =>
      simp only [runDownloadSuccess, hpo, Bool.false_eq_true, if_false]
      simp [progVals, progressOkB, hprev]
    | true =>
      rcases hsub : env.sub with _ | sf
      · simp only [runDownloadSuccess, hpo, hsub]
        simp [progVals, progressOkB, hprev]
      · rcases hbr : (burnSubtitleWithProgress env.burn).2 with _ | msg <;>
          cases hz : sf.isZh <;>
          simp only [runDownloadSuccess, hpo, hsub, hbr, hz, Bool.false_eq_true,
            if_false, if_true] <;>
          simp only [progVals, List.filterMap_append, List.filterMap_cons,
            List.filterMap_nil, Option.map_none', Option.map_some',
            List.nil_append, List.append_nil]
        · show progressOkB prev ([((99 : ℚ), true)] ++ [((0 : ℚ), true)] ++
            progVals ((burnPcts env.burn).map burnCbUpd) ++ [((100 : ℚ), false)])
            = true
          simp only [List.append_assoc, List.singleton_append, List.cons_append,
            List.nil_append]
          rw [progressOkB_flag_cons, progressOkB_flag_cons, progressOkB_append,
            hcb, Bool.true_and]
          exact hdone false
        · show progressOkB prev ([((0 : ℚ), true)] ++
            progVals ((burnPcts env.burn).map burnCbUpd) ++ [((100 : ℚ), false)])
            = true
          simp only [List.append_assoc, List.singleton_append, List.cons_append,
            List.nil_append]
          rw [progressOkB_flag_cons, progressOkB_append, hcb, Bool.true_and]
          exact hdone false
        · show progressOkB prev ([((99 : ℚ), true)] ++ [((0 : ℚ), true)] ++
            progVals ((burnPcts env.burn).map burnCbUpd) ++ [((100 : ℚ), false)])
            = true
          simp only [List.append_assoc, List.singleton_append, List.cons_append,
            List.nil_append]
          rw [progressOkB_flag_cons, progressOkB_flag_cons, progressOkB_append,
            hcb, Bool.true_and]
          exact hdone false
        · show progressOkB prev ([((0 : ℚ), true)] ++
            progVals ((burnPcts env.burn).map burnCbUpd) ++ [((100 : ℚ), false)])
            = true
          simp only [List.append_assoc, List.singleton_append, List.cons_append,
            List.nil_append]
          rw [progressOkB_flag_cons, progressOkB_append, hcb, Bool.true_and]
          exact hdone false

/-- C2 amended: between consecutive update_job calls of run_download the
    progress field never decreases except at updates that deliberately
    rewrite it: the reset to 0 at the fallback retry and at the burn-in
    start, and the cap to 99 at the merging and translating transitions
    (assuming the extraction service reports parseable, non-decreasing,
    at most 100 percentages per attempt with finished events only at the
    end, and the transcoder reports non-decreasing output times).  The
    walk below carries the last written progress value and requires
    every decrease to land on such a flagged update. -/
theorem c2_amended (jobDir quality : String) (b : Bool) (env : DlEnv)
    (hwf : envWF env = true) :
    progressOkB 0 (progVals (runDownload jobDir quality b env).updates) = true := by
  have hwfs : evsWF env.attempt1.events = true ∧ evsWF env.attempt2.events = true ∧
      sortedNats env.burn.outTimes = true := by
    simp only [envWF, Bool.and_eq_true] at hwf
    exact ⟨hwf.1.1, hwf.1.2, hwf.2⟩
  obtain ⟨hwf1, hwf2, hsort⟩ := hwfs
  have hhook1 : progressOkB 0 (progVals (env.attempt1.events.map hookUpd)) = true :=
    progressOkB_hook env.attempt1.events 0 0 hwf1 (by rw [pyRound1_zero])
  have hend1 : endVal 0 (progVals (env.attempt1.events.map hookUpd)) ≤ 100 :=
    endVal_hook_le env.attempt1.events 0 0 hwf1 (by norm_num)
  have hhook2 : progressOkB 0 (progVals (env.attempt2.events.map hookUpd)) = true :=
    progressOkB_hook env.attempt2.events 0 0 hwf2 (by rw [pyRound1_zero])
  have hend2 : endVal 0 (progVals (env.attempt2.events.map hookUpd)) ≤ 100 :=
    endVal_hook_le env.attempt2.events 0 0 hwf2 (by norm_num)
  rcases h1 : env.attempt1.result with e | title
  · cases hm : strContains e "Requested format is not available" with
    | false =>
      rw [runDownload_err_nomark jobDir quality b env e h1 hm]
      simp only [progVals, List.filterMap_append, List.filterMap_cons,
        List.filterMap_nil, Option.map_none', List.append_nil]
      exact hhook1
    | true =>
      rcases h2 : env.attempt2.result with e2 | t2
      · rw [runDownload_err_mark_err jobDir quality b env e e2 h1 hm h2]
        simp only [progVals, List.filterMap_append, List.filterMap_cons,
          List.filterMap_nil, Option.map_none', Option.map_some',
          List.append_nil, List.append_assoc, List.cons_append, List.nil_append,
          List.singleton_append]
        rw [progressOkB_append, Bool.and_eq_true]
        refine ⟨hhook1, ?_⟩
        exact hhook2
      · rw [runDownload_err_mark_ok jobDir quality b env e t2 h1 hm h2]
        simp only [progVals, List.filterMap_append, List.filterMap_cons,
          List.filterMap_nil, Option.map_none', Option.map_some',
          List.append_nil, List.append_assoc, List.cons_append, List.nil_append,
          List.singleton_append]
        rw [progressOkB_append, Bool.and_eq_true]
        refine ⟨hhook1, ?_⟩
        have key : progressOkB 0 (progVals (env.attempt2.events.map hookUpd) ++
            progVals (runDownloadSuccess jobDir
              (if (quality == "audio") = true then false else b) env t2
              env.attempt2.files)) = true := by
          rw [progressOkB_append, Bool.and_eq_true]
          exact ⟨hhook2, progressOkB_success _ _ _ _ _ _ hend2 hsort⟩
        exact key
  · rw [runDownload_ok jobDir quality b env title h1]
    simp only [progVals, List.filterMap_append]
    rw [progressOkB_append, Bool.and_eq_true]
    exact ⟨hhook1, progressOkB_success _ _ _ _ _ _ hend1 hsort⟩

/-- Witness for C2 amended at a concrete well-formed environment. -/
theorem c2_amended_witness :
    envWF envPlain = true ∧
    progressOkB 0 (progVals (runDownload "d" "best" false envPlain).updates)
      = true :=
  ⟨by decide, c2_amended "d" "best" false envPlain (by decide)⟩

/-- C2 counterexample: in a successful download with burn-in, the
    update sequence writes progress 99 at the merging transition and
    then 0 at the burn-in start while the status is still non-terminal,
    so the as-written claim that progress never decreases between
    updates while the status is non-terminal is false on the code. -/
theorem c2_counterexample :
    pairwiseMonoB (recSeq (make_job "u" "a")
      (runDownload "d" "best" true envBurnFail).updates) = false := by
  decide

/-- Witness for C7 at a concrete environment with a failing burn. -/
theorem c7_witness :
    (finalRecord (make_job "u" "a") (runDownload "d" "best" true envBurnFail)).status
        = .done ∧
    (finalRecord (make_job "u" "a") (runDownload "d" "best" true envBurnFail)).error
        = none ∧
    (finalRecord (make_job "u" "a")
        (runDownload "d" "best" true envBurnFail)).burn_error =
      some ("字幕烧录失败（可下载原始视频）：" ++ burnErrorMsg envBurnFail.burn) ∧
    (finalRecord (make_job "u" "a")
        (runDownload "d" "best" true envBurnFail)).original_filepath
        = some "d/v.mp4" := by
  have h := c7_burn_failure_nonfatal "d" "best" "u" "a" "t" envBurnFail
    ⟨false, true⟩ ("v.mp4", 7) (by decide) rfl (by decide) rfl (by decide)
  exact ⟨h.1, h.2.1, h.2.2.1, h.2.2.2.1.trans (by decide)⟩
